import Mathlib

/-!
Verification of the One-KVM HID firmware (Pico variant, `src/hid/pico/src`),
a shallow embedding of the link protocol engine, the persisted output
configuration store, and the USB/PS-2 device emulation backends.

Machine integers are modelled as `Nat` with explicit truncation (`% 2^w`)
where the C code overflows; byte buffers are `List Nat` with every element
below 256.
-/

namespace OneKVM

/-! ### CRC-16 and 16-bit split/merge utilities, from `ph_tools.h` -/

/-- One shift step of the CRC-16 loop body in `ph_crc16` (`ph_tools.h`):
reflected polynomial 0xA001, LSB-first. -/
def crcStep (crc : Nat) : Nat :=
  if crc &&& 0x0001 = 0 then crc >>> 1 else (crc >>> 1) ^^^ 0xA001

/-- `n` iterations of `crcStep` (the inner `for` loop of `ph_crc16`). -/
def crcSteps : Nat → Nat → Nat
  | 0, c => c
  | n + 1, c => crcSteps n (crcStep c)

/-- Processing of a single buffer byte in `ph_crc16`: xor the byte into the
running crc, then run 8 shift steps. -/
def crcByte (crc b : Nat) : Nat := crcSteps 8 (crc ^^^ b)

/-- `ph_crc16` generalized over the initial register value. -/
def ph_crc16_from (init : Nat) (buf : List Nat) : Nat := buf.foldl crcByte init

/-- `ph_crc16` from `ph_tools.h`: initial value 0xFFFF, no final xor. -/
def ph_crc16 (buf : List Nat) : Nat := ph_crc16_from 0xFFFF buf

/-- `ph_merge8_u16` from `ph_tools.h`: `((u16)a << 8) | (u16)b`. -/
def ph_merge8_u16 (a b : Nat) : Nat := (a <<< 8) ||| b

/-- High output byte of `ph_split16`: `(u8)(from >> 8)`. -/
def ph_split16_hi (x : Nat) : Nat := (x >>> 8) % 256

/-- Low output byte of `ph_split16`: `(u8)(from & 0xFF)`. -/
def ph_split16_lo (x : Nat) : Nat := x &&& 0xFF

/-! ### Output configuration store, from `ph_outputs.c`

The persisted record lives in the RP2040 watchdog scratch register 0, a
32-bit value packing `[magic, role byte, crcHi, crcLo]`. -/

/-- Packing of the 4 record bytes into the scratch word, from
`ph_outputs_write`: `((u32)data[0] << 24) | ... | (u32)data[3]`. -/
def packScratch (d0 d1 d2 d3 : Nat) : Nat :=
  (((d0 <<< 24) ||| (d1 <<< 16)) ||| (d2 <<< 8)) ||| d3

/-- `_read_outputs` from `ph_outputs.c`: unpack the scratch word, check magic
and CRC; `none` models the C return value `-1`. -/
def read_outputs (scratch : Nat) : Option Nat :=
  if (scratch >>> 24) &&& 0xFF = 0x33 ∧
      ph_crc16 [(scratch >>> 24) &&& 0xFF, (scratch >>> 16) &&& 0xFF] =
        ph_merge8_u16 ((scratch >>> 8) &&& 0xFF) (scratch &&& 0xFF) then
    some ((scratch >>> 16) &&& 0xFF)
  else
    none

/-- `ph_outputs_write` from `ph_outputs.c`.  The `mask` and `outputs`
parameters are `u8` in the C signature, hence the `% 256` casts; `old & ~mask`
on a byte-valued `old` equals `old &&& (0xFF ^^^ mask)`. -/
def ph_outputs_write (mask outputs : Nat) (force : Bool) (scratch : Nat) : Nat :=
  let mask := mask % 256
  let outputs := outputs % 256
  let old : Nat := if force then 0 else (read_outputs scratch).getD 0
  let data1 := (old &&& (0xFF ^^^ mask)) ||| outputs
  let crc := ph_crc16 [0x33, data1]
  packScratch 0x33 data1 (ph_split16_hi crc) (ph_split16_lo crc)

/-- The byte stored by `ph_outputs_write`. -/
def writtenByte (mask outputs : Nat) (force : Bool) (scratch : Nat) : Nat :=
  ((if force then 0 else (read_outputs scratch).getD 0) &&&
    (0xFF ^^^ mask % 256)) ||| outputs % 256

/-! ### Output initialization, from `ph_outputs_init` -/

/-- The DIP-switch pin levels read at boot (`true` = switch closed, pin low),
in the order they are read in `ph_outputs_init`. -/
structure PinConfig where
  ps2Enabled : Bool
  ps2Kbd : Bool
  ps2Mouse : Bool
  bridge : Bool
  usbDisabledPin : Bool
  usbW98 : Bool
  usbMouseRel : Bool
  usbMouseW98 : Bool

/-- The default role byte synthesized by `ph_outputs_init` when the persisted
record is invalid (the two `if` chains filling `outputs`). -/
def init_defaults (p : PinConfig) : Nat :=
  let usbDisabled := p.bridge || p.usbDisabledPin
  (if p.ps2Enabled && (p.ps2Kbd || usbDisabled) then 0x03
   else if !usbDisabled then 0x01 else 0) |||
  (if p.ps2Enabled && (p.ps2Mouse || usbDisabled) then 0x18
   else if !usbDisabled then
     (if p.usbW98 && p.usbMouseW98 then 0x20
      else if p.usbMouseRel then 0x10
      else 0x08)
   else 0)

/-- The static capability byte `ph_g_outputs_avail` built by
`ph_outputs_init`. -/
def init_avail (p : PinConfig) : Nat :=
  (if !(p.bridge || p.usbDisabledPin) then
     0x01 ||| (if p.usbW98 then 0x04 else 0)
   else 0) |||
  (if p.ps2Enabled then 0x02 else 0)

/-- Result of `ph_outputs_init`: the final scratch word, the globals
`ph_g_outputs_active` / `ph_g_outputs_avail`, and the trace of
`ph_outputs_write` calls performed (mask, outputs, force). -/
structure InitResult where
  scratch : Nat
  active : Nat
  avail : Nat
  writes : List (Nat × Nat × Bool)

/-- `ph_outputs_init` from `ph_outputs.c` (after the GPIO reads, which are
modelled by `PinConfig`). -/
def ph_outputs_init (scratch : Nat) (p : PinConfig) : InitResult :=
  match read_outputs scratch with
  | some v => ⟨scratch, v &&& 0xFF, init_avail p, []⟩
  | none =>
      let d := init_defaults p
      let scratch' := ph_outputs_write 0xFF d true scratch
      ⟨scratch', d &&& 0xFF, init_avail p, [(0xFF, d, true)]⟩

/-! ### PS/2 mouse emulator state, from `ph_ps2_mouse.c` -/

/-- The `ph_ps2_mouse.c` globals: device type (`ms_type`: 0 = Standard,
3 = Wheel-3-Button, 4 = Wheel-5-Button), stream mode, one-byte-argument input
mode, sample rate, the 32-bit magic-sequence accumulator `ms_magic_seq`,
the held button mask, and the bytes queued to the PS/2 phy
(`queue_try_add(&ph_ps2_mouse.qbytes, ...)`). -/
structure Ps2Mouse where
  msType : Nat
  msMode : Nat
  msInputMode : Nat
  msRate : Nat
  magicSeq : Nat
  buttons : Nat
  sent : List Nat
  deriving Repr, DecidableEq

/-- Initial values of the `ph_ps2_mouse.c` globals. -/
def ps2MouseInit : Ps2Mouse :=
  { msType := 0, msMode := 0, msInputMode := 0, msRate := 100,
    magicSeq := 0, buttons := 0, sent := [] }

/-- `ph_ps2_mouse_send`: queue one byte to the device-to-host phy. -/
def ph_ps2_mouse_send (b : Nat) (s : Ps2Mouse) : Ps2Mouse :=
  { s with sent := s.sent ++ [b] }

/-- `ph_ps2_mouse_receive` from `ph_ps2_mouse.c` (the host-to-device command
interpreter).  `ms_magic_seq = (ms_magic_seq << 8) | byte` is u32 arithmetic,
hence the `% 2^32`. -/
def ph_ps2_mouse_receive (byte : Nat) (s : Ps2Mouse) : Ps2Mouse :=
  if s.msInputMode = 1 then
    let s1 := ph_ps2_mouse_send 0xfa { s with msRate := byte, msInputMode := 0 }
    let seq := ((s1.magicSeq <<< 8) ||| byte) % 4294967296
    let s2 := { s1 with magicSeq := seq }
    if s2.msType = 0 ∧ seq = 0xc86450 then { s2 with msType := 3 }
    else if s2.msType = 3 ∧ seq = 0xc8c850 then { s2 with msType := 4 }
    else s2
  else
    let s1 := if byte ≠ 0xf3 then { s with magicSeq := 0 } else s
    if byte = 0xff then
      let s2 := { s1 with msType := 0, msMode := 0, msRate := 100 }
      ph_ps2_mouse_send s2.msType (ph_ps2_mouse_send 0xaa (ph_ps2_mouse_send 0xfa s2))
    else if byte = 0xf6 then
      ph_ps2_mouse_send 0xfa { s1 with msType := 0, msRate := 100, msMode := 0 }
    else if byte = 0xf5 ∨ byte = 0xea then
      ph_ps2_mouse_send 0xfa { s1 with msMode := 0 }
    else if byte = 0xf4 then
      ph_ps2_mouse_send 0xfa { s1 with msMode := 1 }
    else if byte = 0xf3 then
      ph_ps2_mouse_send 0xfa { s1 with msInputMode := 1 }
    else if byte = 0xf2 then
      ph_ps2_mouse_send s1.msType (ph_ps2_mouse_send 0xfa s1)
    else if byte = 0xe9 then
      ph_ps2_mouse_send s1.msRate (ph_ps2_mouse_send 0x02
        (ph_ps2_mouse_send 0x00 (ph_ps2_mouse_send 0xfa s1)))
    else
      ph_ps2_mouse_send 0xfa s1

/-- Feed a host-to-device byte sequence to the mouse emulator. -/
def runMouseBytes (bytes : List Nat) (s : Ps2Mouse) : Ps2Mouse :=
  bytes.foldl (fun s b => ph_ps2_mouse_receive b s) s

/-- The Set-Sample-Rate command stream of the C2 scenario: six `0xF3`
commands with argument bytes `0xC8,0x64,0x50,0xC8,0xC8,0x50`. -/
def c2Handshake : List Nat :=
  [0xf3, 0xc8, 0xf3, 0x64, 0xf3, 0x50, 0xf3, 0xc8, 0xf3, 0xc8, 0xf3, 0x50]

/-! ### USB keyboard backend state, from `ph_usb.c` -/

/-- The USB keyboard backend state of `ph_usb.c`: the modifier bitmask
`_kbd_mods`, the 6-slot boot-protocol key array `_kbd_keys` (0 = empty slot),
and whether the keyboard interface exists (`_kbd_iface >= 0`). -/
structure UsbKbd where
  mods : Nat
  keys : List Nat
  ifaceOk : Bool
  deriving Repr, DecidableEq

/-- The slot-scanning loop of `ph_usb_kbd_send_key` (press path): walk the
key array; report whether the key is already pressed, else remember the index
of the last empty slot seen (`pos`). -/
def kbdScan (key : Nat) : Nat → List Nat → Option Nat → Bool × Option Nat
  | _, [], pos => (false, pos)
  | i, k :: rest, pos =>
      if k = key then (true, pos)
      else kbdScan key (i + 1) rest (if k = 0 then some i else pos)

/-- The release loop of `ph_usb_kbd_send_key`: zero the first slot holding
the key. -/
def kbdReleaseFirst (key : Nat) : List Nat → List Nat
  | [] => []
  | k :: rest => if k = key then 0 :: rest else k :: kbdReleaseFirst key rest

/-- `ph_usb_kbd_send_key` from `ph_usb.c` (the held-state update; the report
transmission `_kbd_sync_report` only sends the state and is not modelled).
Modifiers 0xE0..0xE7 toggle a bit of the 8-bit mask (`mods &= ~bit` on the
`u8` mask is `mods &&& (0xFF ^^^ bit)`); regular keys go through the slot
scan, and with no empty slot (`pos = -1`) the C code writes slot 0. -/
def ph_usb_kbd_send_key (key : Nat) (state : Bool) (s : UsbKbd) : UsbKbd :=
  if !s.ifaceOk then s
  else if 0xE0 ≤ key ∧ key ≤ 0xE7 then
    let bit := 1 <<< (key &&& 0x07)
    if state then { s with mods := s.mods ||| bit }
    else { s with mods := s.mods &&& (0xFF ^^^ bit) }
  else
    if state then
      match kbdScan key 0 s.keys none with
      | (true, _) => s
      | (false, pos) => { s with keys := s.keys.set (pos.getD 0) key }
    else
      { s with keys := kbdReleaseFirst key s.keys }

/-! ### PS/2 keyboard emulator, from `ph_ps2_kbd.c`

The typematic repeat uses the pico-sdk one-shot alarm API.  The alarm pool is
modelled as the list of pending repeat-callback alarm ids (`pool`), together
with a fresh-id counter (`nextId`); `add_alarm_in_ms` appends a fresh id,
`cancel_alarm` removes one, and a callback returning a nonzero microsecond
count keeps its alarm scheduled while a zero return frees it. -/

/-- Scan-set-2 translation table for modifiers, `ph_ps2_mod2ps2`. -/
def ph_ps2_mod2ps2 : List Nat := [0x14, 0x12, 0x11, 0x1f, 0x14, 0x59, 0x11, 0x27]

/-- LED-mask translation table `ph_ps2_led2ps2`. -/
def ph_ps2_led2ps2 : List Nat := [0, 4, 1, 5, 2, 6, 3, 7]

/-- HID-usage to scan-set-2 translation table `ph_ps2_hid2ps2`. -/
def ph_ps2_hid2ps2 : List Nat :=
  [0x00, 0x00, 0xfc, 0x00, 0x1c, 0x32, 0x21, 0x23, 0x24, 0x2b, 0x34, 0x33, 0x43, 0x3b, 0x42, 0x4b,
   0x3a, 0x31, 0x44, 0x4d, 0x15, 0x2d, 0x1b, 0x2c, 0x3c, 0x2a, 0x1d, 0x22, 0x35, 0x1a, 0x16, 0x1e,
   0x26, 0x25, 0x2e, 0x36, 0x3d, 0x3e, 0x46, 0x45, 0x5a, 0x76, 0x66, 0x0d, 0x29, 0x4e, 0x55, 0x54,
   0x5b, 0x5d, 0x5d, 0x4c, 0x52, 0x0e, 0x41, 0x49, 0x4a, 0x58, 0x05, 0x06, 0x04, 0x0c, 0x03, 0x0b,
   0x83, 0x0a, 0x01, 0x09, 0x78, 0x07, 0x7c, 0x7e, 0x7e, 0x70, 0x6c, 0x7d, 0x71, 0x69, 0x7a, 0x74,
   0x6b, 0x72, 0x75, 0x77, 0x4a, 0x7c, 0x7b, 0x79, 0x5a, 0x69, 0x72, 0x7a, 0x6b, 0x73, 0x74, 0x6c,
   0x75, 0x7d, 0x70, 0x71, 0x61, 0x2f, 0x37, 0x0f, 0x08, 0x10, 0x18, 0x20, 0x28, 0x30, 0x38, 0x40,
   0x48, 0x50, 0x57, 0x5f]

/-- `ph_ps2_maparray = sizeof(ph_ps2_hid2ps2)`. -/
def ph_ps2_maparray : Nat := ph_ps2_hid2ps2.length

/-- Typematic period table `ph_ps2_repeats` (microseconds, 32 entries). -/
def ph_ps2_repeats : List Nat :=
  [33333, 37453, 41667, 45872, 48309, 54054, 58480, 62500,
   66667, 75188, 83333, 91743, 100000, 108696, 116279, 125000,
   133333, 149254, 166667, 181818, 200000, 217391, 232558, 250000,
   270270, 303030, 333333, 370370, 400000, 434783, 476190, 500000]

/-- Typematic delay table `ph_ps2_delays` (milliseconds, 4 entries). -/
def ph_ps2_delays : List Nat := [250, 500, 750, 1000]

/-- The `ph_ps2_kbd.c` globals, plus the model of the alarm pool (`pool`,
`nextId`) and the byte queue to the phy (`sent`). `repeater = 0` models a
null `alarm_id_t`. -/
structure Ps2Kbd where
  scanning : Bool
  repeatUs : Nat
  delayMs : Nat
  repeatKey : Nat
  repeatMod : Bool
  isCtrl : Int
  repeater : Nat
  leds : Nat
  blinkPending : Bool
  pool : List Nat
  nextId : Nat
  sent : List Nat
  deriving Repr, DecidableEq

/-- `ph_ps2_kbd_send`: queue one byte to the device-to-host phy. -/
def ph_ps2_kbd_send (b : Nat) (s : Ps2Kbd) : Ps2Kbd :=
  { s with sent := s.sent ++ [b] }

/-- The extended-prefix condition of `ph_ps2_kbd_maybe_send_e0`. -/
def needsE0 (b : Nat) : Bool :=
  b = 0x46 || (0x49 ≤ b && b ≤ 0x52) || b = 0x54 || b = 0x58 ||
    b = 0x65 || b = 0x66 || 0x81 ≤ b

/-- `ph_ps2_kbd_maybe_send_e0` from `ph_ps2_kbd.c`. -/
def ph_ps2_kbd_maybe_send_e0 (b : Nat) (s : Ps2Kbd) : Ps2Kbd :=
  if needsE0 b then ph_ps2_kbd_send 0xe0 s else s

/-- `ph_ps2_repeat_callback` from `ph_ps2_kbd.c`: re-emit the repeated key's
make code and return the next interval, or clear `ph_ps2_kbd_repeater` and
return 0 when no key is repeating. -/
def ph_ps2_repeat_callback (s : Ps2Kbd) : Ps2Kbd × Nat :=
  if s.repeatKey ≠ 0 then
    if s.repeatMod then
      let s1 := if s.repeatKey > 3 ∧ s.repeatKey ≠ 6 then ph_ps2_kbd_send 0xe0 s else s
      (ph_ps2_kbd_send (ph_ps2_mod2ps2.getD (s.repeatKey - 1) 0) s1, s.repeatUs)
    else
      let s1 := ph_ps2_kbd_maybe_send_e0 s.repeatKey s
      (ph_ps2_kbd_send (ph_ps2_hid2ps2.getD s.repeatKey 0) s1, s.repeatUs)
  else
    ({ s with repeater := 0 }, 0)

/-- Firing of the pending repeat alarm `id` by the sdk alarm pool: run the
callback; a zero return frees the alarm, a nonzero return keeps it scheduled
after that many microseconds. -/
def ph_ps2_kbd_fire (id : Nat) (s : Ps2Kbd) : Ps2Kbd × Nat :=
  let r := ph_ps2_repeat_callback s
  (if r.2 = 0 then { r.1 with pool := r.1.pool.erase id } else r.1, r.2)

/-- The `cancel_alarm` / `add_alarm_in_ms` pair of the press paths of
`ph_ps2_kbd_send_key`: cancel any pending repeat alarm, then arm a fresh
one and remember its id in `ph_ps2_kbd_repeater`. -/
def armRepeat (s : Ps2Kbd) : Ps2Kbd :=
  let s1 := if s.repeater ≠ 0 then { s with pool := s.pool.erase s.repeater } else s
  { s1 with
    repeater := s1.nextId
    pool := s1.pool ++ [s1.nextId]
    nextId := s1.nextId + 1 }

/-- `ph_ps2_kbd_reset` from `ph_ps2_kbd.c` (the 500 ms blink alarm is
modelled by `blinkPending`). -/
def ph_ps2_kbd_reset (s : Ps2Kbd) : Ps2Kbd :=
  { s with
    scanning := true
    repeatUs := 91743
    delayMs := 500
    repeatKey := 0
    leds := 7
    blinkPending := true }

/-- `ph_ps2_blink_callback`. -/
def ph_ps2_blink_fire (s : Ps2Kbd) : Ps2Kbd :=
  ph_ps2_kbd_send 0xaa { s with leds := 0, blinkPending := false }

/-- `ph_ps2_kbd_send_key` from `ph_ps2_kbd.c`.  `isPs2` is the value of the
`PH_O_IS_KBD_PS2` macro (a read of the global `ph_g_outputs_active`). -/
def ph_ps2_kbd_send_key (isPs2 : Bool) (key : Nat) (state : Bool) (s : Ps2Kbd) :
    Ps2Kbd :=
  if isPs2 ∧ s.scanning then
    if 0xE0 ≤ key ∧ key ≤ 0xE7 then
      let s :=
        if key = 0xE0 ∨ key = 0xE4 then
          let c := if state then s.isCtrl + 1 else s.isCtrl - 1
          { s with isCtrl := if c < 0 ∨ c > 2 then 0 else c }
        else s
      let k := key - 0xE0
      let s := if k > 2 ∧ k ≠ 5 then ph_ps2_kbd_send 0xE0 s else s
      let s :=
        if state then
          armRepeat { s with repeatKey := k + 1, repeatMod := true }
        else
          let s := if s.repeatKey = k + 1 ∧ s.repeatMod then { s with repeatKey := 0 } else s
          ph_ps2_kbd_send 0xF0 s
      ph_ps2_kbd_send (ph_ps2_mod2ps2.getD k 0) s
    else if key < ph_ps2_maparray then
      if key = 0x48 then
        let s := { s with repeatKey := 0 }
        if state then
          if s.isCtrl ≠ 0 then
            [0xE0, 0x7E, 0xE0, 0xF0, 0x7E].foldl (fun t b => ph_ps2_kbd_send b t) s
          else
            [0xE1, 0x14, 0x77, 0xE1, 0xF0, 0x14, 0xF0, 0x77].foldl
              (fun t b => ph_ps2_kbd_send b t) s
        else s
      else
        let s := ph_ps2_kbd_maybe_send_e0 key s
        let s :=
          if state then
            armRepeat { s with repeatKey := key, repeatMod := false }
          else
            let s := if s.repeatKey = key ∧ s.repeatMod = false then { s with repeatKey := 0 } else s
            ph_ps2_kbd_send 0xF0 s
        ph_ps2_kbd_send (ph_ps2_hid2ps2.getD key 0) s
    else s
  else s

/-- `ph_ps2_kbd_receive` from `ph_ps2_kbd.c` (host-to-device command
interpreter with one byte of argument context). -/
def ph_ps2_kbd_receive (byte prevByte : Nat) (s : Ps2Kbd) : Ps2Kbd :=
  if prevByte = 0xED then
    let b := if byte > 7 then 0 else byte
    ph_ps2_kbd_send 0xFA { s with leds := ph_ps2_led2ps2.getD b 0 }
  else if prevByte = 0xF3 then
    ph_ps2_kbd_send 0xFA
      { s with
        repeatUs := ph_ps2_repeats.getD (byte &&& 0x1F) 0
        delayMs := ph_ps2_delays.getD ((byte &&& 0x60) >>> 5) 0 }
  else if byte = 0xFF then
    ph_ps2_kbd_send 0xFA (ph_ps2_kbd_reset s)
  else if byte = 0xEE then
    ph_ps2_kbd_send 0xEE s
  else if byte = 0xF2 then
    ph_ps2_kbd_send 0x83 (ph_ps2_kbd_send 0xAB (ph_ps2_kbd_send 0xFA s))
  else if byte = 0xF4 then
    ph_ps2_kbd_send 0xFA { s with scanning := true }
  else if byte = 0xF5 ∨ byte = 0xF6 then
    ph_ps2_kbd_send 0xFA
      { s with
        scanning := byte = 0xF6
        repeatUs := 91743
        delayMs := 500
        repeatKey := 0
        leds := 0 }
  else
    ph_ps2_kbd_send 0xFA s

/-- State after `ph_ps2_kbd_init` (zero-initialized globals, then
`ph_ps2_kbd_reset`); alarm ids start at 1. -/
def ps2KbdInit : Ps2Kbd :=
  ph_ps2_kbd_reset
    { scanning := false, repeatUs := 0, delayMs := 0, repeatKey := 0,
      repeatMod := false, isCtrl := 0, repeater := 0, leds := 0,
      blinkPending := false, pool := [], nextId := 1, sent := [] }

/-- One step of the PS/2 keyboard emulator: a key event from the link engine,
a host-to-device command byte, the repeat alarm firing, or the reset blink
alarm firing. -/
inductive Ps2KbdStep : Ps2Kbd → Ps2Kbd → Prop
  | sendKey (isPs2 : Bool) (key : Nat) (state : Bool) {s : Ps2Kbd} :
      Ps2KbdStep s (ph_ps2_kbd_send_key isPs2 key state s)
  | receive (byte prevByte : Nat) {s : Ps2Kbd} :
      Ps2KbdStep s (ph_ps2_kbd_receive byte prevByte s)
  | fire (id : Nat) {s : Ps2Kbd} (h : id ∈ s.pool) :
      Ps2KbdStep s (ph_ps2_kbd_fire id s).1
  | blink {s : Ps2Kbd} (h : s.blinkPending = true) :
      Ps2KbdStep s (ph_ps2_blink_fire s)

/-- Reachable states of the PS/2 keyboard emulator. -/
inductive Ps2KbdReach : Ps2Kbd → Prop
  | init : Ps2KbdReach ps2KbdInit
  | step {s t : Ps2Kbd} : Ps2KbdReach s → Ps2KbdStep s t → Ps2KbdReach t

/-- The alarm-pool invariant: at most the one alarm named by
`ph_ps2_kbd_repeater` is pending, ids are positive, and the typematic period
is positive. -/
def ps2KbdInv (s : Ps2Kbd) : Prop :=
  s.pool = (if s.repeater = 0 then [] else [s.repeater]) ∧
    1 ≤ s.nextId ∧ 1 ≤ s.repeatUs

/-- The make code emitted for a held regular key by the repeat callback. -/
def ps2MakeCode (key : Nat) : List Nat :=
  (if needsE0 key then [0xE0] else []) ++ [ph_ps2_hid2ps2.getD key 0]

/-! ### Role-test macros from `ph_outputs.h` -/

def PH_O_IS_KBD_USB (active : Nat) : Bool := active &&& 0x07 == 0x01
def PH_O_IS_KBD_PS2 (active : Nat) : Bool := active &&& 0x07 == 0x03
def PH_O_IS_MOUSE_USB_ABS (active : Nat) : Bool :=
  active &&& 0x38 == 0x08 || active &&& 0x38 == 0x20
def PH_O_IS_MOUSE_USB_REL (active : Nat) : Bool := active &&& 0x38 == 0x10
def PH_O_IS_MOUSE_USB (active : Nat) : Bool :=
  active &&& 0x38 == 0x08 || active &&& 0x38 == 0x10 || active &&& 0x38 == 0x20
def PH_O_IS_MOUSE_PS2 (active : Nat) : Bool := active &&& 0x38 == 0x18

/-! ### USB mouse state and PS/2 mouse senders, from `ph_usb.c` /
`ph_ps2_mouse.c` -/

/-- The USB mouse globals of `ph_usb.c`: `_mouse_buttons`, `_mouse_abs_x`,
`_mouse_abs_y`. -/
structure UsbMouse where
  buttons : Nat
  absX : Int
  absY : Int
  deriving Repr, DecidableEq

/-- `ph_ps2_mouse_packet` from `ph_ps2_mouse.c`: emit a 3-byte (4-byte on
wheel types) movement/button packet while streaming is enabled. -/
def ph_ps2_mouse_packet (button x1 y1 : Nat) (m : Ps2Mouse) : Ps2Mouse :=
  if m.msMode = 1 then
    let s0 := (button &&& 7) + 8
    let x0 := x1 &&& 0x7F
    let y0 := y1 &&& 0x7F
    let s1 := if x1 >>> 7 ≠ 0 then s0 + 0x10 else s0
    let x := if x1 >>> 7 ≠ 0 then x0 + 0x80 else x0
    let s2 := if y1 >>> 7 ≠ 0 then s1 else if y0 ≠ 0 then s1 + 0x20 else s1
    let y := if y1 >>> 7 ≠ 0 then 0x80 - y0 else if y0 ≠ 0 then 0x100 - y0 else y0
    let m := ph_ps2_mouse_send y (ph_ps2_mouse_send x (ph_ps2_mouse_send s2 m))
    if m.msType = 3 ∨ m.msType = 4 then ph_ps2_mouse_send 0 m else m
  else m

/-- `ph_ps2_mouse_send_button` from `ph_ps2_mouse.c` (`button` is the USB
button code; the `u8` button mask update `buttons &= ~(1 << (button-1))` is
`&&& (0xFF ^^^ bit)`). -/
def ph_ps2_mouse_send_button (button : Nat) (state : Bool) (m : Ps2Mouse) :
    Ps2Mouse :=
  let b := button - 1
  let m := { m with buttons :=
    if state then m.buttons ||| (1 <<< b) else m.buttons &&& (0xFF ^^^ (1 <<< b)) }
  ph_ps2_mouse_packet m.buttons 0 0 m

/-! ### Link protocol engine, from `main.c` and `ph_cmds.c` -/

/-- The engine state: the persisted record word, the `ph_outputs.c` /
`main.c` globals, and the four device-emulation backends. -/
structure Engine where
  scratch : Nat
  active : Nat
  avail : Nat
  resetRequired : Bool
  prevCode : Nat
  usbKbd : UsbKbd
  usbKbdLeds : Nat
  usbKbdOnline : Bool
  usbMouseOnline : Bool
  usbMouse : UsbMouse
  ps2Kbd : Ps2Kbd
  ps2KbdOnline : Bool
  ps2MouseOnline : Bool
  ps2Mouse : Ps2Mouse
  deriving Repr, DecidableEq

/-- `ph_cmd_kbd_get_leds` from `ph_cmds.c` (TinyUSB LED bits: num = 1,
caps = 2, scroll = 4; response bits: caps = 1, scroll = 2, num = 4). -/
def ph_cmd_kbd_get_leds (e : Engine) : Nat :=
  let leds :=
    if PH_O_IS_KBD_USB e.active then e.usbKbdLeds
    else if PH_O_IS_KBD_PS2 e.active then e.ps2Kbd.leds
    else 0
  ((if leds &&& 2 ≠ 0 then 1 else 0) ||| (if leds &&& 4 ≠ 0 then 2 else 0)) |||
    (if leds &&& 1 ≠ 0 then 4 else 0)

/-- `ph_cmd_get_offlines` from `ph_cmds.c`. -/
def ph_cmd_get_offlines (e : Engine) : Nat :=
  let kbdOnline :=
    if PH_O_IS_KBD_USB e.active then e.usbKbdOnline
    else if PH_O_IS_KBD_PS2 e.active then e.ps2KbdOnline
    else true
  let mouseOnline :=
    if PH_O_IS_MOUSE_USB e.active then e.usbMouseOnline
    else if PH_O_IS_MOUSE_PS2 e.active then e.ps2MouseOnline
    else true
  (if kbdOnline then 0 else 0x08) ||| (if mouseOnline then 0 else 0x10)

/-- `ph_cmd_set_kbd`. -/
def ph_cmd_set_kbd (args : List Nat) (e : Engine) : Engine :=
  { e with scratch := ph_outputs_write 0x07 (args.getD 0 0) false e.scratch }

/-- `ph_cmd_set_mouse`. -/
def ph_cmd_set_mouse (args : List Nat) (e : Engine) : Engine :=
  { e with scratch := ph_outputs_write 0x38 (args.getD 0 0) false e.scratch }

/-- `ph_usb_send_clear` from `ph_usb.c` (state clearing; the report
transmission is not modelled). -/
def ph_usb_send_clear (e : Engine) : Engine :=
  let e :=
    if PH_O_IS_KBD_USB e.active then
      { e with usbKbd := { e.usbKbd with mods := 0, keys := List.replicate 6 0 } }
    else e
  if PH_O_IS_MOUSE_USB e.active then
    { e with usbMouse := ⟨0, 0, 0⟩ }
  else e

/-- `ph_cmd_send_clear` from `ph_cmds.c`; `ph_ps2_send_clear` is an empty
stub in `ph_ps2.c`, so only the USB state is cleared. -/
def ph_cmd_send_clear (args : List Nat) (e : Engine) : Engine :=
  let _ := args
  ph_usb_send_clear e

/-- `ph_cmd_kbd_send_key` from `ph_cmds.c`.  `keymap` stands for
`ph_usb_keymap` from the generated `ph_usb_keymap.h`, which is not part of
the repository sources; it is kept abstract. -/
def ph_cmd_kbd_send_key (keymap : Nat → Nat) (args : List Nat) (e : Engine) :
    Engine :=
  let key := keymap (args.getD 0 0)
  if key > 0 then
    if PH_O_IS_KBD_USB e.active then
      { e with usbKbd := ph_usb_kbd_send_key key (args.getD 1 0 ≠ 0) e.usbKbd }
    else if PH_O_IS_KBD_PS2 e.active then
      { e with ps2Kbd := (ph_ps2_kbd_send_key (PH_O_IS_KBD_PS2 e.active) key
          (args.getD 1 0 ≠ 0) e.ps2Kbd) }
    else e
  else e

/-- `ph_usb_mouse_send_button` from `ph_usb.c` (the button-mask update; the
report transmission is not modelled). -/
def ph_usb_mouse_send_button (button : Nat) (state : Bool) (e : Engine) :
    Engine :=
  if PH_O_IS_MOUSE_USB e.active then
    { e with usbMouse := { e.usbMouse with buttons :=
        if state then e.usbMouse.buttons ||| button
        else e.usbMouse.buttons &&& (0xFF ^^^ button) } }
  else e

/-- One expansion of the `HANDLE` macro of `ph_cmd_mouse_send_button`. -/
def mouseButtonHandle (byte selBit stBit usbCode : Nat) (e : Engine) : Engine :=
  if byte &&& selBit ≠ 0 then
    let st := byte &&& stBit ≠ 0
    if PH_O_IS_MOUSE_USB e.active then ph_usb_mouse_send_button usbCode st e
    else if PH_O_IS_MOUSE_PS2 e.active then
      { e with ps2Mouse := ph_ps2_mouse_send_button usbCode st e.ps2Mouse }
    else e
  else e

/-- `ph_cmd_mouse_send_button` from `ph_cmds.c` (TinyUSB button codes:
left = 1, right = 2, middle = 4, backward = 8, forward = 16). -/
def ph_cmd_mouse_send_button (args : List Nat) (e : Engine) : Engine :=
  let a0 := args.getD 0 0
  let a1 := args.getD 1 0
  let e := mouseButtonHandle a0 0x80 0x08 1 e
  let e := mouseButtonHandle a0 0x40 0x04 2 e
  let e := mouseButtonHandle a0 0x20 0x02 4 e
  let e := mouseButtonHandle a1 0x80 0x08 8 e
  mouseButtonHandle a1 0x40 0x04 16 e

/-- `ph_merge8_s16` from `ph_tools.h` (16-bit big-endian, sign-extended). -/
def ph_merge8_s16 (a b : Nat) : Int :=
  let v := ph_merge8_u16 a b
  if v < 32768 then (v : Int) else (v : Int) - 65536

/-- `ph_cmd_mouse_send_abs` from `ph_cmds.c` via `ph_usb_mouse_send_abs`
(stores the absolute position; the report transmission is not modelled). -/
def ph_cmd_mouse_send_abs (args : List Nat) (e : Engine) : Engine :=
  if PH_O_IS_MOUSE_USB_ABS e.active then
    { e with usbMouse := { e.usbMouse with
        absX := ph_merge8_s16 (args.getD 0 0) (args.getD 1 0)
        absY := ph_merge8_s16 (args.getD 2 0) (args.getD 3 0) } }
  else e

/-- `ph_cmd_mouse_send_rel` from `ph_cmds.c`: the USB relative backend only
transmits a report (no stored state); the PS/2 backend emits a movement
packet. -/
def ph_cmd_mouse_send_rel (args : List Nat) (e : Engine) : Engine :=
  if PH_O_IS_MOUSE_USB_REL e.active then e
  else if PH_O_IS_MOUSE_PS2 e.active then
    { e with ps2Mouse := (ph_ps2_mouse_packet e.ps2Mouse.buttons
        (args.getD 0 0) (args.getD 1 0) e.ps2Mouse) }
  else e

/-- `ph_cmd_mouse_send_wheel` from `ph_cmds.c`: the USB backends only
transmit a report, and `ph_ps2_mouse_send_wheel` is a stub, so no stored
state changes. -/
def ph_cmd_mouse_send_wheel (args : List Nat) (e : Engine) : Engine :=
  let _ := args
  e

/-- `_handle_request` from `main.c` (pico): validate magic and CRC, then
dispatch on the command byte.  Returns the new engine state and the status
code handed to `_send_response` (0x80 = PONG_OK, 0 = repeat sentinel,
0x45 = INVALID_ERROR, 0x40 = CRC_ERROR). -/
def _handle_request (keymap : Nat → Nat) (data : List Nat) (e : Engine) :
    Engine × Nat :=
  if data.getD 0 0 = 0x33 ∧
      ph_crc16 (data.take 6) = ph_merge8_u16 (data.getD 6 0) (data.getD 7 0) then
    let args := data.drop 2
    let cmd := data.getD 1 0
    if cmd = 0x01 then (e, 0x80)
    else if cmd = 0x03 then ({ ph_cmd_set_kbd args e with resetRequired := true }, 0x80)
    else if cmd = 0x04 then ({ ph_cmd_set_mouse args e with resetRequired := true }, 0x80)
    else if cmd = 0x05 then (e, 0x80)
    else if cmd = 0x10 then (ph_cmd_send_clear args e, 0x80)
    else if cmd = 0x11 then (ph_cmd_kbd_send_key keymap args e, 0x80)
    else if cmd = 0x13 then (ph_cmd_mouse_send_button args e, 0x80)
    else if cmd = 0x12 then (ph_cmd_mouse_send_abs args e, 0x80)
    else if cmd = 0x15 then (ph_cmd_mouse_send_rel args e, 0x80)
    else if cmd = 0x14 then (ph_cmd_mouse_send_wheel args e, 0x80)
    else if cmd = 0x02 then (e, 0)
    else (e, 0x45)
  else (e, 0x40)

/-- The 8 response bytes built by `_send_response` for (already
repeat-resolved) code `cc`. -/
def respBytes (cc : Nat) (e : Engine) : List Nat :=
  let r1 :=
    if cc &&& 0x80 ≠ 0 then
      ((0x80 ||| (if e.resetRequired then 0x40 else 0)) |||
        ph_cmd_get_offlines e) ||| ph_cmd_kbd_get_leds e
    else cc
  let r2 := if cc &&& 0x80 ≠ 0 then 0x80 ||| e.active else 0
  let r3 := if cc &&& 0x80 ≠ 0 then e.avail else 0
  let crc := ph_crc16 [0x34, r1, r2, r3, 0, 0]
  [0x34, r1, r2, r3, 0, 0, ph_split16_hi crc, ph_split16_lo crc]

/-- `_send_response` from `main.c` (pico): code 0 means "repeat the previous
code"; any other code becomes the new previous code.  The deferred watchdog
reboot after a reset-requiring command happens after the bytes are written
and is not modelled. -/
def _send_response (code : Nat) (e : Engine) : Engine × List Nat :=
  let e1 := if code = 0 then e else { e with prevCode := code }
  let cc := if code = 0 then e.prevCode else code
  (e1, respBytes cc e1)

/-- `_data_handler` from `main.c`. -/
def _data_handler (keymap : Nat → Nat) (data : List Nat) (e : Engine) :
    Engine × List Nat :=
  let r := _handle_request keymap data e
  _send_response r.2 r.1

/-- `_timeout_handler` from `main.c`. -/
def _timeout_handler (e : Engine) : Engine × List Nat :=
  _send_response 0x48 e

/-- A well-formed valid request frame: 8 bytes, each below 256, magic 0x33,
and a CRC matching bytes 0..5. -/
def validFrame (f : List Nat) : Prop :=
  f.length = 8 ∧ (∀ b ∈ f, b < 256) ∧ f.getD 0 0 = 0x33 ∧
    ph_crc16 (f.take 6) = ph_merge8_u16 (f.getD 6 0) (f.getD 7 0)

/-- Flip bit `k` of byte `p` of a frame. -/
def flipBit (f : List Nat) (p k : Nat) : List Nat :=
  f.set p (f.getD p 0 ^^^ (1 <<< k))

/-! ### Theorems -/

/-! ### Arithmetic facts about the utilities -/

theorem crcStep_lt {c : Nat} (h : c < 65536) : crcStep c < 65536 := by
  unfold crcStep
  split
  · omega
  · have h1 : c >>> 1 < 65536 := by omega
    exact Nat.xor_lt_two_pow (n := 16) h1 (by norm_num)

theorem crcSteps_lt {n c : Nat} (h : c < 65536) : crcSteps n c < 65536 := by
  induction n generalizing c with
  | zero => exact h
  | succ n ih => exact ih (crcStep_lt h)

theorem crcByte_lt {c b : Nat} (hc : c < 65536) (hb : b < 65536) :
    crcByte c b < 65536 :=
  crcSteps_lt (Nat.xor_lt_two_pow (n := 16) hc hb)

theorem ph_crc16_from_lt {init : Nat} {buf : List Nat} (hi : init < 65536)
    (hb : ∀ b ∈ buf, b < 65536) : ph_crc16_from init buf < 65536 := by
  induction buf generalizing init with
  | nil => exact hi
  | cons x xs ih =>
      exact ih (crcByte_lt hi (hb x (by simp))) (fun b h => hb b (by simp [h]))

theorem ph_crc16_lt {buf : List Nat} (hb : ∀ b ∈ buf, b < 65536) :
    ph_crc16 buf < 65536 :=
  ph_crc16_from_lt (by norm_num) hb

theorem ph_merge8_u16_eq {a b : Nat} (hb : b < 256) :
    ph_merge8_u16 a b = a * 256 + b := by
  unfold ph_merge8_u16
  rw [Nat.shiftLeft_eq, Nat.mul_comm a (2 ^ 8),
    ← Nat.mul_add_lt_is_or (i := 8) (b := b) (by norm_num [hb]) a]

theorem ph_merge8_u16_lt {a b : Nat} (ha : a < 256) (hb : b < 256) :
    ph_merge8_u16 a b < 65536 := by
  rw [ph_merge8_u16_eq hb]; omega

theorem ph_split16_hi_lt (x : Nat) : ph_split16_hi x < 256 := by
  unfold ph_split16_hi; omega

theorem ph_split16_lo_lt (x : Nat) : ph_split16_lo x < 256 := by
  unfold ph_split16_lo
  have : x &&& 0xFF = x % 256 := Nat.and_pow_two_sub_one_eq_mod x 8
  omega

theorem merge_split {x : Nat} (h : x < 65536) :
    ph_merge8_u16 (ph_split16_hi x) (ph_split16_lo x) = x := by
  have hlo : ph_split16_lo x = x % 256 := Nat.and_pow_two_sub_one_eq_mod x 8
  have hhi : ph_split16_hi x = x / 256 := by
    unfold ph_split16_hi
    rw [Nat.shiftRight_eq_div_pow]
    norm_num
    omega
  rw [ph_merge8_u16_eq (by rw [hlo]; omega), hhi, hlo]
  omega

theorem ph_merge8_u16_inj {a b a' b' : Nat} (hb : b < 256) (hb' : b' < 256)
    (h : ph_merge8_u16 a b = ph_merge8_u16 a' b') : a = a' ∧ b = b' := by
  rw [ph_merge8_u16_eq hb, ph_merge8_u16_eq hb'] at h
  omega

/-! ### Linearity of the CRC over xor -/

theorem shiftRight_one_xor (a b : Nat) : (a ^^^ b) >>> 1 = a >>> 1 ^^^ b >>> 1 := by
  apply Nat.eq_of_testBit_eq
  intro i
  simp [Nat.testBit_shiftRight, Nat.testBit_xor]

theorem crcStep_xor (a b : Nat) : crcStep (a ^^^ b) = crcStep a ^^^ crcStep b := by
  have hand : (a ^^^ b) &&& 1 = (a &&& 1) ^^^ (b &&& 1) := Nat.and_xor_distrib_right
  have ha := Nat.mod_two_eq_zero_or_one a
  have hb := Nat.mod_two_eq_zero_or_one b
  unfold crcStep
  rcases ha with ha | ha <;> rcases hb with hb | hb <;>
    simp only [hand, Nat.and_one_is_mod, ha, hb] <;> norm_num <;>
    (apply Nat.eq_of_testBit_eq
     intro i
     simp only [Nat.testBit_shiftRight, Nat.testBit_xor]) <;>
    (cases ha' : a.testBit (1 + i) <;> cases hb' : b.testBit (1 + i) <;>
       cases hc : (40961 : Nat).testBit i <;> simp [ha', hb', hc])

theorem crcSteps_xor (n a b : Nat) :
    crcSteps n (a ^^^ b) = crcSteps n a ^^^ crcSteps n b := by
  induction n generalizing a b with
  | zero => rfl
  | succ n ih => simp only [crcSteps, crcStep_xor, ih]

theorem xor_xor_swap (a x b y : Nat) :
    (a ^^^ x) ^^^ (b ^^^ y) = (a ^^^ b) ^^^ (x ^^^ y) := by
  apply Nat.eq_of_testBit_eq
  intro i
  simp only [Nat.testBit_xor]
  cases a.testBit i <;> cases x.testBit i <;> cases b.testBit i <;>
    cases y.testBit i <;> rfl

theorem crcByte_xor (a x b y : Nat) :
    crcByte a x ^^^ crcByte b y = crcByte (a ^^^ b) (x ^^^ y) := by
  unfold crcByte
  rw [← crcSteps_xor, xor_xor_swap]

theorem ph_crc16_from_xor (xs : List Nat) :
    ∀ (ys : List Nat) (i j : Nat), xs.length = ys.length →
      ph_crc16_from i xs ^^^ ph_crc16_from j ys =
        ph_crc16_from (i ^^^ j) (List.zipWith (· ^^^ ·) xs ys) := by
  induction xs with
  | nil =>
      intro ys i j h
      cases ys with
      | nil => rfl
      | cons y ys => simp at h
  | cons x xs ih =>
      intro ys i j h
      cases ys with
      | nil => simp at h
      | cons y ys =>
          simp only [List.zipWith_cons_cons, ph_crc16_from, List.foldl_cons]
          rw [show List.foldl crcByte (crcByte i x) xs = ph_crc16_from (crcByte i x) xs from rfl,
              show List.foldl crcByte (crcByte j y) ys = ph_crc16_from (crcByte j y) ys from rfl,
              show List.foldl crcByte (crcByte (i ^^^ j) (x ^^^ y)) (List.zipWith (· ^^^ ·) xs ys) =
                ph_crc16_from (crcByte (i ^^^ j) (x ^^^ y)) (List.zipWith (· ^^^ ·) xs ys) from rfl,
              ih ys (crcByte i x) (crcByte j y) (by simpa using h), crcByte_xor]

theorem zipWith_xor_self (l : List Nat) :
    List.zipWith (· ^^^ ·) l l = List.replicate l.length 0 := by
  induction l with
  | nil => rfl
  | cons x xs ih => simp [List.zipWith_cons_cons, ih, List.replicate_succ]

theorem zipWith_xor_set (l : List Nat) :
    ∀ (p : Nat) (e : Nat), p < l.length →
      List.zipWith (· ^^^ ·) l (l.set p (l.getD p 0 ^^^ e)) =
        (List.replicate l.length 0).set p e := by
  induction l with
  | nil => intro p e h; simp at h
  | cons x xs ih =>
      intro p e h
      cases p with
      | zero =>
          simp only [List.set, List.getD_cons_zero, List.zipWith_cons_cons,
            List.replicate_succ]
          rw [← Nat.xor_assoc, Nat.xor_self, Nat.zero_xor, zipWith_xor_self]
      | succ p =>
          simp only [List.set, List.getD_cons_succ, List.zipWith_cons_cons,
            List.replicate_succ, Nat.xor_self]
          rw [ih p e (by simpa using h)]

/-- Flipping one bit in one buffer byte shifts the CRC by the zero-initialised
CRC of the corresponding one-hot buffer. -/
theorem ph_crc16_set_xor (l : List Nat) (p e : Nat) (hp : p < l.length) :
    ph_crc16 (l.set p (l.getD p 0 ^^^ e)) =
      ph_crc16 l ^^^ ph_crc16_from 0 ((List.replicate l.length 0).set p e) := by
  have hlen : l.length = (l.set p (l.getD p 0 ^^^ e)).length := by simp
  have h := ph_crc16_from_xor l (l.set p (l.getD p 0 ^^^ e)) 0xFFFF 0xFFFF hlen
  rw [Nat.xor_self, zipWith_xor_set l p e hp] at h
  unfold ph_crc16
  rw [← h, ← Nat.xor_assoc, Nat.xor_self, Nat.zero_xor]

set_option maxRecDepth 16384 in
/-- The zero-initialised CRC of every one-hot 6-byte buffer is nonzero:
CRC-16 detects every single-bit error in a 6-byte message. -/
theorem crc16_one_hot_ne_zero :
    ∀ p < 6, ∀ k < 8,
      ph_crc16_from 0 ((List.replicate 6 0).set p (1 <<< k)) ≠ 0 := by
  decide

theorem or_eq_add {a b n : Nat} (hb : b < 2 ^ n) (ha : a % 2 ^ n = 0) :
    a ||| b = a + b := by
  obtain ⟨c, rfl⟩ : ∃ c, a = 2 ^ n * c :=
    ⟨a / 2 ^ n, (Nat.mul_div_cancel' (Nat.dvd_of_mod_eq_zero ha)).symm⟩
  rw [← Nat.mul_add_lt_is_or hb c]

theorem packScratch_eq {d0 d1 d2 d3 : Nat} (_h0 : d0 < 256) (h1 : d1 < 256)
    (h2 : d2 < 256) (h3 : d3 < 256) :
    packScratch d0 d1 d2 d3 = ((d0 * 256 + d1) * 256 + d2) * 256 + d3 := by
  have p24 : (2 : Nat) ^ 24 = 16777216 := by norm_num
  have p16 : (2 : Nat) ^ 16 = 65536 := by norm_num
  have p8 : (2 : Nat) ^ 8 = 256 := by norm_num
  have e1 : d0 * 16777216 ||| d1 * 65536 = d0 * 16777216 + d1 * 65536 :=
    or_eq_add (n := 24) (by rw [p24]; omega) (by rw [p24]; omega)
  have e2 : d0 * 16777216 + d1 * 65536 ||| d2 * 256 =
      d0 * 16777216 + d1 * 65536 + d2 * 256 :=
    or_eq_add (n := 16) (by rw [p16]; omega) (by rw [p16]; omega)
  have e3 : d0 * 16777216 + d1 * 65536 + d2 * 256 ||| d3 =
      d0 * 16777216 + d1 * 65536 + d2 * 256 + d3 :=
    or_eq_add (n := 8) (by rw [p8]; omega) (by rw [p8]; omega)
  unfold packScratch
  rw [Nat.shiftLeft_eq, Nat.shiftLeft_eq, Nat.shiftLeft_eq, p24, p16, p8,
    e1, e2, e3]
  ring

theorem packScratch_unpack {d0 d1 d2 d3 : Nat} (h0 : d0 < 256) (h1 : d1 < 256)
    (h2 : d2 < 256) (h3 : d3 < 256) :
    (packScratch d0 d1 d2 d3 >>> 24) &&& 0xFF = d0 ∧
    (packScratch d0 d1 d2 d3 >>> 16) &&& 0xFF = d1 ∧
    (packScratch d0 d1 d2 d3 >>> 8) &&& 0xFF = d2 ∧
    packScratch d0 d1 d2 d3 &&& 0xFF = d3 := by
  rw [packScratch_eq h0 h1 h2 h3]
  have e24 := Nat.shiftRight_eq_div_pow (((d0 * 256 + d1) * 256 + d2) * 256 + d3) 24
  have e16 := Nat.shiftRight_eq_div_pow (((d0 * 256 + d1) * 256 + d2) * 256 + d3) 16
  have e8 := Nat.shiftRight_eq_div_pow (((d0 * 256 + d1) * 256 + d2) * 256 + d3) 8
  norm_num at e24 e16 e8
  have m24 := Nat.and_pow_two_sub_one_eq_mod ((((d0 * 256 + d1) * 256 + d2) * 256 + d3) >>> 24) 8
  have m16 := Nat.and_pow_two_sub_one_eq_mod ((((d0 * 256 + d1) * 256 + d2) * 256 + d3) >>> 16) 8
  have m8 := Nat.and_pow_two_sub_one_eq_mod ((((d0 * 256 + d1) * 256 + d2) * 256 + d3) >>> 8) 8
  have m0 := Nat.and_pow_two_sub_one_eq_mod (((d0 * 256 + d1) * 256 + d2) * 256 + d3) 8
  norm_num at m24 m16 m8 m0
  refine ⟨?_, ?_, ?_, ?_⟩ <;> omega

theorem read_outputs_lt {scratch v : Nat} (h : read_outputs scratch = some v) :
    v < 256 := by
  unfold read_outputs at h
  split at h
  · cases h
    have := Nat.and_le_right (n := scratch >>> 16) (m := 0xFF)
    omega
  · cases h

theorem writtenByte_lt (mask outputs : Nat) (force : Bool) (scratch : Nat) :
    writtenByte mask outputs force scratch < 256 := by
  unfold writtenByte
  apply Nat.or_lt_two_pow (n := 8)
  · have h1 : (0xFF ^^^ mask % 256) < 256 :=
      Nat.xor_lt_two_pow (n := 8) (by norm_num) (by omega)
    have := Nat.and_le_right
      (n := if force then 0 else (read_outputs scratch).getD 0)
      (m := 0xFF ^^^ mask % 256)
    norm_num
    omega
  · norm_num
    omega

/-- Reading back the record written by `ph_outputs_write` always succeeds and
returns the merged byte. -/
theorem read_after_write (mask outputs : Nat) (force : Bool) (scratch : Nat) :
    read_outputs (ph_outputs_write mask outputs force scratch) =
      some (writtenByte mask outputs force scratch) := by
  have hb := writtenByte_lt mask outputs force scratch
  set b := writtenByte mask outputs force scratch with hbdef
  have hcrc : ph_crc16 [0x33, b] < 65536 := by
    apply ph_crc16_lt
    intro x hx
    simp at hx
    rcases hx with h | h <;> omega
  have hw : ph_outputs_write mask outputs force scratch =
      packScratch 0x33 b (ph_split16_hi (ph_crc16 [0x33, b]))
        (ph_split16_lo (ph_crc16 [0x33, b])) := rfl
  obtain ⟨u0, u1, u2, u3⟩ := @packScratch_unpack 0x33 b
    (ph_split16_hi (ph_crc16 [0x33, b]))
    (ph_split16_lo (ph_crc16 [0x33, b]))
    (by norm_num) hb (ph_split16_hi_lt _) (ph_split16_lo_lt _)
  unfold read_outputs
  rw [hw, u0, u1, u2, u3, if_pos]
  exact ⟨rfl, (merge_split hcrc).symm⟩

theorem init_defaults_lt (p : PinConfig) : init_defaults p < 256 := by
  unfold init_defaults
  apply Nat.or_lt_two_pow (n := 8) <;> (repeat' split) <;> norm_num

theorem testBit_255 (j : Nat) : Nat.testBit 255 j = decide (j < 8) := by
  have := Nat.testBit_two_pow_sub_one 8 j
  norm_num at this
  exact this

theorem testBit_of_lt_256 {x i : Nat} (hx : x < 256) (hi : 8 ≤ i) :
    Nat.testBit x i = false := by
  apply Nat.testBit_lt_two_pow
  calc x < 256 := hx
    _ = 2 ^ 8 := by norm_num
    _ ≤ 2 ^ i := Nat.pow_le_pow_right (by norm_num) hi

/-- C2 (counterexample): starting from type Standard, the six Set-Sample-Rate
commands with arguments `0xC8,0x64,0x50,0xC8,0xC8,0x50` and no other
intervening command leave the device type at Wheel-3-Button (3), not
Wheel-5-Button (4): the 32-bit accumulator holds `0x50c8c850` after the sixth
argument, which fails the `0xc8c850` comparison.  A subsequent Get-Device-ID
replies `0xFA, 0x03`, not `0xFA, 0x04`. -/
theorem ps2_mouse_handshake_counterexample :
    (runMouseBytes c2Handshake ps2MouseInit).msType = 3 ∧
    (runMouseBytes c2Handshake ps2MouseInit).msType ≠ 4 ∧
    (runMouseBytes c2Handshake ps2MouseInit).magicSeq = 0x50c8c850 ∧
    (runMouseBytes (c2Handshake ++ [0xf2]) ps2MouseInit).sent =
      List.replicate 13 0xfa ++ [0x03] := by
  decide

/-- C2 (amended): the first triple `0xC8,0x64,0x50` promotes Standard →
Wheel-3-Button after its third argument, but with no intervening command the
second triple leaves the type at Wheel-3-Button and Get-Device-ID replies
`0xFA, 0x03`; Wheel-5-Button is reached only when some non-`0xF3` command
(here Get-Device-ID) clears the accumulator between the two triples, after
which Get-Device-ID replies `0xFA, 0x04`. -/
theorem ps2_mouse_handshake :
    (runMouseBytes (c2Handshake.take 4) ps2MouseInit).msType = 0 ∧
    (runMouseBytes (c2Handshake.take 6) ps2MouseInit).msType = 3 ∧
    (runMouseBytes c2Handshake ps2MouseInit).msType = 3 ∧
    (runMouseBytes (c2Handshake ++ [0xf2]) ps2MouseInit).sent =
      List.replicate 13 0xfa ++ [0x03] ∧
    (runMouseBytes (c2Handshake.take 6 ++ [0xf2] ++ c2Handshake.drop 6)
      ps2MouseInit).msType = 4 ∧
    (runMouseBytes (c2Handshake.take 6 ++ [0xf2] ++ c2Handshake.drop 6 ++ [0xf2])
      ps2MouseInit).sent.getLast? = some 0x04 := by
  decide

/-- C3 (counterexample): with a stored record byte `0x00`, the masked write
`write(mask = 0x07, value = 0x08, force = false)` stores `0x08`: bit 3, which
lies outside the mask, changes from 0 to 1, because `ph_outputs_write` ors in
the whole `outputs` byte without masking it. -/
theorem ph_outputs_write_mask_counterexample :
    read_outputs (ph_outputs_write 0xFF 0x00 true 0) = some 0 ∧
    read_outputs (ph_outputs_write 0x07 0x08 false
      (ph_outputs_write 0xFF 0x00 true 0)) = some 8 ∧
    Nat.testBit 0x07 3 = false ∧
    Nat.testBit 8 3 = true ∧
    Nat.testBit 0 3 = false := by
  decide

/-- C3 (amended): `write(mask, value, force = false)` stores
`(old & ~mask) | value`; whenever `value` has no bits outside `mask`, every
bit outside `mask` of the stored byte equals the corresponding bit of the
previously stored byte `old`. -/
theorem ph_outputs_write_masked (mask value old scratch : Nat)
    (hm : mask < 256) (hv : value < 256)
    (hold : read_outputs scratch = some old)
    (hconf : value &&& (0xFF ^^^ mask) = 0) :
    read_outputs (ph_outputs_write mask value false scratch) =
      some ((old &&& (0xFF ^^^ mask)) ||| value) ∧
    ∀ i, Nat.testBit mask i = false →
      Nat.testBit ((old &&& (0xFF ^^^ mask)) ||| value) i = Nat.testBit old i := by
  have hob : old < 256 := read_outputs_lt hold
  constructor
  · rw [read_after_write]
    congr 1
    unfold writtenByte
    rw [hold, Nat.mod_eq_of_lt hm, Nat.mod_eq_of_lt hv]
    rfl
  · intro i him
    have hvi : Nat.testBit value i = false := by
      by_cases hi : i < 8
      · have hc := congrArg (fun x => Nat.testBit x i) hconf
        simp only [Nat.testBit_and, Nat.testBit_xor, Nat.zero_testBit,
          testBit_255, him] at hc
        simpa [hi] using hc
      · exact testBit_of_lt_256 hv (by omega)
    by_cases hi : i < 8
    · simp [Nat.testBit_or, Nat.testBit_and, Nat.testBit_xor, testBit_255,
        him, hvi, hi]
    · have hoi : Nat.testBit old i = false := testBit_of_lt_256 hob (by omega)
      simp [Nat.testBit_or, Nat.testBit_and, hvi, hoi]

theorem ph_outputs_write_masked_witness :
    read_outputs (ph_outputs_write 0x07 0x01 false
      (ph_outputs_write 0xFF 0x00 true 0)) =
        some ((0 &&& (0xFF ^^^ 0x07)) ||| 0x01) ∧
    Nat.testBit ((0 &&& (0xFF ^^^ 0x07)) ||| 0x01) 3 = Nat.testBit 0 3 := by
  have h := ph_outputs_write_masked 0x07 0x01 0
    (ph_outputs_write 0xFF 0x00 true 0) (by decide) (by decide) (by decide)
    (by decide)
  exact ⟨h.1, h.2 3 (by decide)⟩

/-- C6: if the persisted record fails the magic/CRC check at boot,
`ph_outputs_init` synthesizes the default role byte from the pin straps,
persists it exactly once with `force = true`, and a read of the new record
succeeds and returns that byte; a record that passes the check is used as-is
and no write is performed. -/
theorem ph_outputs_init_spec (scratch : Nat) (p : PinConfig) :
    (read_outputs scratch = none →
      (ph_outputs_init scratch p).writes = [(0xFF, init_defaults p, true)] ∧
      read_outputs (ph_outputs_init scratch p).scratch =
        some (init_defaults p) ∧
      (ph_outputs_init scratch p).active = init_defaults p) ∧
    (∀ v, read_outputs scratch = some v →
      ph_outputs_init scratch p = ⟨scratch, v, init_avail p, []⟩) := by
  constructor
  · intro hnone
    have hd := init_defaults_lt p
    have hinit : ph_outputs_init scratch p =
        ⟨ph_outputs_write 0xFF (init_defaults p) true scratch,
          init_defaults p &&& 0xFF, init_avail p,
          [(0xFF, init_defaults p, true)]⟩ := by
      unfold ph_outputs_init
      rw [hnone]
    have hand : init_defaults p &&& 0xFF = init_defaults p := by
      have := Nat.and_pow_two_sub_one_eq_mod (init_defaults p) 8
      norm_num at this
      omega
    refine ⟨by rw [hinit], ?_, by rw [hinit]; exact hand⟩
    rw [hinit]
    show read_outputs (ph_outputs_write 0xFF (init_defaults p) true scratch) = _
    rw [read_after_write]
    congr 1
    unfold writtenByte
    simp only [if_pos, Nat.zero_and]
    show 0 ||| init_defaults p % 256 = init_defaults p
    rw [Nat.zero_or, Nat.mod_eq_of_lt hd]
  · intro v hsome
    have hv := read_outputs_lt hsome
    have hand : v &&& 0xFF = v := by
      have := Nat.and_pow_two_sub_one_eq_mod v 8
      norm_num at this
      omega
    simp [ph_outputs_init, hsome, hand]

theorem ph_outputs_init_spec_witness :
    read_outputs (ph_outputs_init 0
        ⟨false, false, false, false, false, false, false, false⟩).scratch =
      some (init_defaults
        ⟨false, false, false, false, false, false, false, false⟩) ∧
    ph_outputs_init (ph_outputs_write 0xFF 0x00 true 0)
        ⟨false, false, false, false, false, false, false, false⟩ =
      ⟨ph_outputs_write 0xFF 0x00 true 0, 0,
        init_avail ⟨false, false, false, false, false, false, false, false⟩,
        []⟩ :=
  ⟨((ph_outputs_init_spec 0 _).1 (by decide)).2.1,
    (ph_outputs_init_spec _ _).2 0 (by decide)⟩

/-! ### USB keyboard rollover lemmas -/

theorem kbdScan_full {key : Nat} {l : List Nat} (hnot : key ∉ l)
    (hfull : ∀ k ∈ l, k ≠ 0) : ∀ i p, kbdScan key i l p = (false, p) := by
  induction l with
  | nil => intro i p; rfl
  | cons k rest ih =>
      intro i p
      have hk : k ≠ key := fun h => hnot (h ▸ List.mem_cons_self k rest)
      have hk0 : k ≠ 0 := hfull k (List.mem_cons_self k rest)
      simp only [kbdScan, if_neg hk, if_neg hk0]
      exact ih (fun h => hnot (List.mem_cons_of_mem k h))
        (fun x hx => hfull x (List.mem_cons_of_mem k hx)) _ _

theorem kbdScan_finds_zero {key : Nat} {l : List Nat} (hnot : key ∉ l)
    (hzero : (0 : Nat) ∈ l) :
    ∀ i p, ∃ j, j < l.length ∧ l.getD j 1 = 0 ∧
      kbdScan key i l p = (false, some (i + j)) := by
  induction l with
  | nil => cases hzero
  | cons k rest ih =>
      intro i p
      have hk : k ≠ key := fun h => hnot (h ▸ List.mem_cons_self k rest)
      have hnr : key ∉ rest := fun h => hnot (List.mem_cons_of_mem k h)
      simp only [kbdScan, if_neg hk]
      by_cases hzr : (0 : Nat) ∈ rest
      · obtain ⟨j, hj, hz, hs⟩ := ih hnr hzr (i + 1) (if k = 0 then some i else p)
        refine ⟨j + 1, by simpa using Nat.succ_lt_succ hj, by simpa using hz, ?_⟩
        have harith : i + 1 + j = i + (j + 1) := by omega
        rw [hs, harith]
      · have hk0 : k = 0 := by
          rcases List.mem_cons.mp hzero with h | h
          · exact h.symm
          · exact absurd h hzr
        refine ⟨0, by simp, by simp [hk0], ?_⟩
        rw [if_pos hk0, kbdScan_full hnr (fun x hx => ?_) (i + 1) (some i)]
        · simp
        · intro hx0
          exact hzr (hx0 ▸ hx)

theorem mem_set_self (l : List Nat) : ∀ (j a : Nat), j < l.length → a ∈ l.set j a := by
  induction l with
  | nil => intro j a h; simp at h
  | cons k rest ih =>
      intro j a h
      cases j with
      | zero => simp
      | succ j =>
          simp only [List.set]
          exact List.mem_cons_of_mem k (ih j a (by simpa using h))

theorem kbdReleaseFirst_length (key : Nat) (l : List Nat) :
    (kbdReleaseFirst key l).length = l.length := by
  induction l with
  | nil => rfl
  | cons k rest ih =>
      unfold kbdReleaseFirst
      split <;> simp [ih]

theorem kbdReleaseFirst_zero {key : Nat} {l : List Nat} (h : key ∈ l) :
    (0 : Nat) ∈ kbdReleaseFirst key l := by
  induction l with
  | nil => cases h
  | cons k rest ih =>
      unfold kbdReleaseFirst
      split
      · simp
      · rcases List.mem_cons.mp h with h | h
        · simp_all
        · simpa using Or.inr (ih h)

theorem ph_usb_kbd_send_key_length (key : Nat) (st : Bool) (s : UsbKbd) :
    (ph_usb_kbd_send_key key st s).keys.length = s.keys.length := by
  unfold ph_usb_kbd_send_key
  split
  · rfl
  · split
    · split <;> rfl
    · split
      · split
        · rfl
        · simp
      · simp [kbdReleaseFirst_length]

/-- C4 (counterexample): with six distinct regular keys held, pressing a
seventh distinct regular key is not dropped: the C scan leaves `pos = -1`
and `_kbd_keys[pos >= 0 ? pos : 0] = key` overwrites slot 0, so the held-key
set changes (key 4 is evicted, key 10 becomes held). -/
theorem usb_kbd_rollover_counterexample :
    ph_usb_kbd_send_key 10 true ⟨0, [4, 5, 6, 7, 8, 9], true⟩ =
      ⟨0, [10, 5, 6, 7, 8, 9], true⟩ ∧
    (4 : Nat) ∈ [4, 5, 6, 7, 8, 9] ∧ (4 : Nat) ∉ ([10, 5, 6, 7, 8, 9] : List Nat) := by
  decide

/-- C4 (amended): with six regular keys held and a seventh distinct regular
key pressed, the new key overwrites slot 0 (it is not dropped); in every
state at most 6 regular keys are reported held (the array has exactly 6
slots); and releasing any held key frees a slot, so a subsequent press of a
fresh key lands in the array. -/
theorem usb_kbd_rollover (s : UsbKbd) (key key' : Nat) (st : Bool)
    (hiface : s.ifaceOk = true)
    (hreg : ¬(0xE0 ≤ key ∧ key ≤ 0xE7))
    (hreg' : ¬(0xE0 ≤ key' ∧ key' ≤ 0xE7)) :
    ((∀ k ∈ s.keys, k ≠ 0) → key ∉ s.keys →
      ph_usb_kbd_send_key key true s = { s with keys := s.keys.set 0 key }) ∧
    (ph_usb_kbd_send_key key st s).keys.length = s.keys.length ∧
    (s.keys.length = 6 →
      ((ph_usb_kbd_send_key key st s).keys.filter (fun k => k ≠ 0)).length ≤ 6) ∧
    (key ∈ s.keys →
      (0 : Nat) ∈ (ph_usb_kbd_send_key key false s).keys ∧
      (key' ∉ (ph_usb_kbd_send_key key false s).keys →
        key' ∈ (ph_usb_kbd_send_key key' true
          (ph_usb_kbd_send_key key false s)).keys)) := by
  refine ⟨?_, ph_usb_kbd_send_key_length key st s, ?_, ?_⟩
  · intro hfull hnot
    unfold ph_usb_kbd_send_key
    rw [hiface, kbdScan_full hnot hfull 0 none]
    simp [hreg]
  · intro h6
    calc ((ph_usb_kbd_send_key key st s).keys.filter (fun k => k ≠ 0)).length
        ≤ (ph_usb_kbd_send_key key st s).keys.length := List.length_filter_le _ _
      _ = 6 := by rw [ph_usb_kbd_send_key_length, h6]
  · intro hheld
    have hrel : ph_usb_kbd_send_key key false s =
        { s with keys := kbdReleaseFirst key s.keys } := by
      unfold ph_usb_kbd_send_key
      rw [hiface]
      simp [hreg]
    refine ⟨by rw [hrel]; exact kbdReleaseFirst_zero hheld, ?_⟩
    intro hfresh
    rw [hrel] at hfresh ⊢
    have hzero : (0 : Nat) ∈ kbdReleaseFirst key s.keys :=
      kbdReleaseFirst_zero hheld
    obtain ⟨j, hj, hs⟩ :
        ∃ j, j < (kbdReleaseFirst key s.keys).length ∧
          kbdScan key' 0 (kbdReleaseFirst key s.keys) none = (false, some j) := by
      obtain ⟨j, hj, _, hs⟩ :=
        kbdScan_finds_zero (l := kbdReleaseFirst key s.keys) hfresh hzero 0 none
      exact ⟨j, hj, by simpa using hs⟩
    unfold ph_usb_kbd_send_key
    rw [hiface, hs]
    simpa [hreg'] using mem_set_self _ j key' hj

theorem usb_kbd_rollover_witness :
    ph_usb_kbd_send_key 10 true ⟨0, [4, 5, 6, 7, 8, 9], true⟩ =
      { mods := 0, keys := [4, 5, 6, 7, 8, 9].set 0 10, ifaceOk := true } ∧
    (0 : Nat) ∈ (ph_usb_kbd_send_key 4 false ⟨0, [4, 5, 6, 7, 8, 9], true⟩).keys := by
  have h := usb_kbd_rollover ⟨0, [4, 5, 6, 7, 8, 9], true⟩ 10 11 true
    (by decide) (by decide) (by decide)
  have h2 := usb_kbd_rollover ⟨0, [4, 5, 6, 7, 8, 9], true⟩ 4 11 true
    (by decide) (by decide) (by decide)
  exact ⟨h.1 (by decide) (by decide), (h2.2.2.2 (by decide)).1⟩

/-! ### PS/2 keyboard alarm-pool lemmas -/

@[simp] theorem ph_ps2_kbd_send_pool (b : Nat) (s : Ps2Kbd) :
    (ph_ps2_kbd_send b s).pool = s.pool := rfl

@[simp] theorem ph_ps2_kbd_send_repeater (b : Nat) (s : Ps2Kbd) :
    (ph_ps2_kbd_send b s).repeater = s.repeater := rfl

@[simp] theorem ph_ps2_kbd_send_nextId (b : Nat) (s : Ps2Kbd) :
    (ph_ps2_kbd_send b s).nextId = s.nextId := rfl

@[simp] theorem ph_ps2_kbd_send_repeatUs (b : Nat) (s : Ps2Kbd) :
    (ph_ps2_kbd_send b s).repeatUs = s.repeatUs := rfl

@[simp] theorem ph_ps2_kbd_send_repeatKey (b : Nat) (s : Ps2Kbd) :
    (ph_ps2_kbd_send b s).repeatKey = s.repeatKey := rfl

@[simp] theorem ph_ps2_kbd_send_repeatMod (b : Nat) (s : Ps2Kbd) :
    (ph_ps2_kbd_send b s).repeatMod = s.repeatMod := rfl

@[simp] theorem ph_ps2_kbd_send_sent (b : Nat) (s : Ps2Kbd) :
    (ph_ps2_kbd_send b s).sent = s.sent ++ [b] := rfl

@[simp] theorem maybe_e0_pool (b : Nat) (s : Ps2Kbd) :
    (ph_ps2_kbd_maybe_send_e0 b s).pool = s.pool := by
  unfold ph_ps2_kbd_maybe_send_e0; split <;> rfl

@[simp] theorem maybe_e0_repeater (b : Nat) (s : Ps2Kbd) :
    (ph_ps2_kbd_maybe_send_e0 b s).repeater = s.repeater := by
  unfold ph_ps2_kbd_maybe_send_e0; split <;> rfl

@[simp] theorem maybe_e0_nextId (b : Nat) (s : Ps2Kbd) :
    (ph_ps2_kbd_maybe_send_e0 b s).nextId = s.nextId := by
  unfold ph_ps2_kbd_maybe_send_e0; split <;> rfl

@[simp] theorem maybe_e0_repeatUs (b : Nat) (s : Ps2Kbd) :
    (ph_ps2_kbd_maybe_send_e0 b s).repeatUs = s.repeatUs := by
  unfold ph_ps2_kbd_maybe_send_e0; split <;> rfl

@[simp] theorem maybe_e0_repeatKey (b : Nat) (s : Ps2Kbd) :
    (ph_ps2_kbd_maybe_send_e0 b s).repeatKey = s.repeatKey := by
  unfold ph_ps2_kbd_maybe_send_e0; split <;> rfl

@[simp] theorem maybe_e0_repeatMod (b : Nat) (s : Ps2Kbd) :
    (ph_ps2_kbd_maybe_send_e0 b s).repeatMod = s.repeatMod := by
  unfold ph_ps2_kbd_maybe_send_e0; split <;> rfl

theorem maybe_e0_sent (b : Nat) (s : Ps2Kbd) :
    (ph_ps2_kbd_maybe_send_e0 b s).sent =
      s.sent ++ (if needsE0 b then [0xE0] else []) := by
  unfold ph_ps2_kbd_maybe_send_e0; split <;> simp_all

@[simp] theorem armRepeat_repeater (s : Ps2Kbd) :
    (armRepeat s).repeater = s.nextId := by
  unfold armRepeat; split <;> rfl

@[simp] theorem armRepeat_nextId (s : Ps2Kbd) :
    (armRepeat s).nextId = s.nextId + 1 := by
  unfold armRepeat; split <;> rfl

@[simp] theorem armRepeat_repeatUs (s : Ps2Kbd) :
    (armRepeat s).repeatUs = s.repeatUs := by
  unfold armRepeat; split <;> rfl

@[simp] theorem armRepeat_repeatKey (s : Ps2Kbd) :
    (armRepeat s).repeatKey = s.repeatKey := by
  unfold armRepeat; split <;> rfl

@[simp] theorem armRepeat_repeatMod (s : Ps2Kbd) :
    (armRepeat s).repeatMod = s.repeatMod := by
  unfold armRepeat; split <;> rfl

theorem armRepeat_pool (s : Ps2Kbd) :
    (armRepeat s).pool =
      (if s.repeater ≠ 0 then s.pool.erase s.repeater else s.pool) ++
        [s.nextId] := by
  unfold armRepeat; split <;> simp_all

theorem foldl_send_pool (l : List Nat) (s : Ps2Kbd) :
    (l.foldl (fun t b => ph_ps2_kbd_send b t) s).pool = s.pool := by
  induction l generalizing s with
  | nil => rfl
  | cons x xs ih => simpa using ih (ph_ps2_kbd_send x s)

theorem foldl_send_repeater (l : List Nat) (s : Ps2Kbd) :
    (l.foldl (fun t b => ph_ps2_kbd_send b t) s).repeater = s.repeater := by
  induction l generalizing s with
  | nil => rfl
  | cons x xs ih => simpa using ih (ph_ps2_kbd_send x s)

theorem foldl_send_nextId (l : List Nat) (s : Ps2Kbd) :
    (l.foldl (fun t b => ph_ps2_kbd_send b t) s).nextId = s.nextId := by
  induction l generalizing s with
  | nil => rfl
  | cons x xs ih => simpa using ih (ph_ps2_kbd_send x s)

theorem foldl_send_repeatUs (l : List Nat) (s : Ps2Kbd) :
    (l.foldl (fun t b => ph_ps2_kbd_send b t) s).repeatUs = s.repeatUs := by
  induction l generalizing s with
  | nil => rfl
  | cons x xs ih => simpa using ih (ph_ps2_kbd_send x s)

/-- `ph_ps2_kbd_send_key` either leaves the alarm state untouched or performs
exactly one cancel-and-rearm (`armRepeat`). -/
theorem send_key_alarm_cases (isPs2 : Bool) (key : Nat) (state : Bool)
    (s : Ps2Kbd) :
    (let r := ph_ps2_kbd_send_key isPs2 key state s
     (r.pool = s.pool ∧ r.repeater = s.repeater ∧ r.nextId = s.nextId ∧
       r.repeatUs = s.repeatUs) ∨
     (r.pool = (if s.repeater ≠ 0 then s.pool.erase s.repeater else s.pool) ++
         [s.nextId] ∧
       r.repeater = s.nextId ∧ r.nextId = s.nextId + 1 ∧
       r.repeatUs = s.repeatUs)) := by
  unfold ph_ps2_kbd_send_key
  dsimp only
  split_ifs <;>
    first
      | (left
         refine ⟨?_, ?_, ?_, ?_⟩ <;>
           simp [foldl_send_pool, foldl_send_repeater, foldl_send_nextId,
             foldl_send_repeatUs]
         done)
      | (right
         refine ⟨?_, ?_, ?_, ?_⟩ <;>
           simp [armRepeat_pool, *]
         done)

/-- `ph_ps2_kbd_receive` never touches the alarm state, and keeps the
typematic period positive. -/
theorem receive_alarm_cases (byte prevByte : Nat) (s : Ps2Kbd)
    (hus : 1 ≤ s.repeatUs) :
    (ph_ps2_kbd_receive byte prevByte s).pool = s.pool ∧
    (ph_ps2_kbd_receive byte prevByte s).repeater = s.repeater ∧
    (ph_ps2_kbd_receive byte prevByte s).nextId = s.nextId ∧
    1 ≤ (ph_ps2_kbd_receive byte prevByte s).repeatUs := by
  have htab : ∀ j, j < 32 → 1 ≤ (ph_ps2_repeats[j]?).getD 0 := by decide
  have hidx : byte &&& 0x1F < 32 := by
    have := Nat.and_le_right (n := byte) (m := 0x1F)
    omega
  unfold ph_ps2_kbd_receive ph_ps2_kbd_reset
  split_ifs <;>
    refine ⟨by simp, by simp, by simp, ?_⟩ <;>
    simp <;>
    first
      | omega
      | exact htab _ hidx

/-- Firing the repeat alarm either re-emits (some repeated key is set: the
alarm state is untouched and the alarm stays scheduled) or, with no repeated
key, clears `ph_ps2_kbd_repeater` and frees the alarm. -/
theorem fire_alarm_cases (id : Nat) (s : Ps2Kbd) (husnz : s.repeatUs ≠ 0) :
    (s.repeatKey ≠ 0 ∧
      (ph_ps2_kbd_fire id s).1.pool = s.pool ∧
      (ph_ps2_kbd_fire id s).1.repeater = s.repeater ∧
      (ph_ps2_kbd_fire id s).1.nextId = s.nextId ∧
      (ph_ps2_kbd_fire id s).1.repeatUs = s.repeatUs) ∨
    (s.repeatKey = 0 ∧
      ph_ps2_kbd_fire id s =
        ({ s with repeater := 0, pool := s.pool.erase id }, 0)) := by
  unfold ph_ps2_kbd_fire ph_ps2_repeat_callback
  dsimp only
  by_cases h1 : s.repeatKey ≠ 0
  · left
    refine ⟨h1, ?_⟩
    rw [if_pos h1]
    split_ifs <;> simp_all
  · right
    have h0 : s.repeatKey = 0 := by omega
    refine ⟨h0, ?_⟩
    rw [if_neg h1]
    simp

/-- Firing the repeat alarm while a regular key is repeating re-emits its
make code and returns the typematic period, keeping the alarm scheduled. -/
theorem fire_regular (id : Nat) (s : Ps2Kbd) (hk : s.repeatKey ≠ 0)
    (hmod : s.repeatMod = false) (husnz : s.repeatUs ≠ 0) :
    ph_ps2_kbd_fire id s =
      ({ s with sent := s.sent ++ ps2MakeCode s.repeatKey }, s.repeatUs) := by
  unfold ph_ps2_kbd_fire ph_ps2_repeat_callback ps2MakeCode
    ph_ps2_kbd_maybe_send_e0 ph_ps2_kbd_send
  dsimp only
  rw [if_pos hk, hmod]
  split_ifs <;> simp_all

/-- Firing the repeat alarm with no repeated key emits nothing, clears
`ph_ps2_kbd_repeater`, and frees the alarm. -/
theorem fire_zero (id : Nat) (t : Ps2Kbd) (hk : t.repeatKey = 0) :
    ph_ps2_kbd_fire id t = ({ t with repeater := 0, pool := t.pool.erase id }, 0) := by
  unfold ph_ps2_kbd_fire ph_ps2_repeat_callback
  dsimp only
  simp [hk]

/-- The alarm-pool invariant is preserved by every step. -/
theorem ps2KbdInv_step {s t : Ps2Kbd} (hinv : ps2KbdInv s)
    (hstep : Ps2KbdStep s t) : ps2KbdInv t := by
  obtain ⟨hpool, hid, hus⟩ := hinv
  cases hstep with
  | sendKey isPs2 key state =>
      rcases send_key_alarm_cases isPs2 key state s with
        ⟨h1, h2, h3, h4⟩ | ⟨h1, h2, h3, h4⟩
      · exact ⟨by rw [h1, h2, hpool], by omega, by omega⟩
      · refine ⟨?_, by omega, by omega⟩
        have hnz : s.nextId ≠ 0 := by omega
        rw [h1, h2, if_neg hnz, hpool]
        by_cases hr : s.repeater = 0
        · rw [if_pos hr, if_neg (fun hc => hc hr)]
          simp
        · rw [if_neg hr, if_pos hr]
          simp
  | receive byte prevByte =>
      obtain ⟨h1, h2, h3, h4⟩ := receive_alarm_cases byte prevByte s hus
      exact ⟨by rw [h1, h2, hpool], by omega, h4⟩
  | fire id h =>
      rcases fire_alarm_cases id s (by omega) with
        ⟨_, h1, h2, h3, h4⟩ | ⟨_, heq⟩
      · exact ⟨by rw [h1, h2, hpool], by omega, by omega⟩
      · -- repeatKey = 0: the callback returns 0 and the alarm is freed
        have hrep : s.repeater ≠ 0 := by
          intro h0
          rw [hpool, if_pos h0] at h
          cases h
        have hideq : id = s.repeater := by
          rw [hpool, if_neg hrep] at h
          simpa using h
        rw [heq]
        refine ⟨?_, by simpa using hid, by simpa using hus⟩
        simp only []
        rw [hpool, if_neg hrep, hideq]
        simp
  | blink h =>
      exact ⟨by simpa using hpool, by simpa using hid, by simpa using hus⟩

/-- Every reachable state of the PS/2 keyboard satisfies the alarm-pool
invariant. -/
theorem ps2KbdReach_inv {s : Ps2Kbd} (h : Ps2KbdReach s) : ps2KbdInv s := by
  induction h with
  | init => exact ⟨by decide, by decide, by decide⟩
  | step _ hstep ih => exact ps2KbdInv_step ih hstep

/-- Pressing a regular key arms a fresh repeat alarm that replaces any
pending one, and records the key for the repeat callback. -/
theorem press_regular_spec (key : Nat) (s : Ps2Kbd)
    (hscan : s.scanning = true) (hlt : key < ph_ps2_maparray)
    (hne : key ≠ 0x48) (hmod : ¬(0xE0 ≤ key ∧ key ≤ 0xE7))
    (hinv : ps2KbdInv s) :
    (ph_ps2_kbd_send_key true key true s).repeater = s.nextId ∧
    (ph_ps2_kbd_send_key true key true s).pool = [s.nextId] ∧
    (ph_ps2_kbd_send_key true key true s).repeatKey = key ∧
    (ph_ps2_kbd_send_key true key true s).repeatMod = false := by
  obtain ⟨hpool, hid, _⟩ := hinv
  unfold ph_ps2_kbd_send_key
  rw [if_pos ⟨rfl, hscan⟩, if_neg hmod, if_pos hlt, if_neg hne]
  dsimp only
  try simp only [if_true]
  refine ⟨by simp, ?_, by simp, by simp⟩
  simp only [ph_ps2_kbd_send_pool, armRepeat_pool, maybe_e0_pool,
    maybe_e0_repeater, maybe_e0_nextId]
  by_cases hr : s.repeater = 0
  · rw [if_neg (not_not_intro hr), hpool, if_pos hr]
    simp
  · rw [if_pos hr, hpool, if_neg hr]
    simp

/-- Releasing the key currently repeating clears `ph_ps2_kbd_repeat`. -/
theorem release_regular_spec (key : Nat) (s : Ps2Kbd)
    (hscan : s.scanning = true) (hlt : key < ph_ps2_maparray)
    (hne : key ≠ 0x48) (hmod : ¬(0xE0 ≤ key ∧ key ≤ 0xE7))
    (hk : s.repeatKey = key) (hrm : s.repeatMod = false) :
    (ph_ps2_kbd_send_key true key false s).repeatKey = 0 := by
  unfold ph_ps2_kbd_send_key
  rw [if_pos ⟨rfl, hscan⟩, if_neg hmod, if_pos hlt, if_neg hne]
  dsimp only
  split_ifs with h1 <;> simp_all

/-- C8: in every reachable state at most one repeat alarm is pending; a press
of a regular key arms a fresh repeat alarm replacing the pending one and
records the key; while a regular key is recorded, the alarm re-emits its make
code and returns the typematic period (staying scheduled); releasing the
repeating key clears the recorded key; and once no key is recorded, a firing
alarm emits nothing, clears `ph_ps2_kbd_repeater`, and is freed. -/
theorem ps2_kbd_typematic (s : Ps2Kbd) (key id : Nat)
    (hreach : Ps2KbdReach s) :
    s.pool.length ≤ 1 ∧
    (s.scanning = true → key < ph_ps2_maparray → key ≠ 0x48 →
      ¬(0xE0 ≤ key ∧ key ≤ 0xE7) →
      (ph_ps2_kbd_send_key true key true s).pool = [s.nextId] ∧
      (ph_ps2_kbd_send_key true key true s).repeater = s.nextId ∧
      (ph_ps2_kbd_send_key true key true s).repeatKey = key) ∧
    (s.repeatKey ≠ 0 → s.repeatMod = false →
      ph_ps2_kbd_fire id s =
        ({ s with sent := s.sent ++ ps2MakeCode s.repeatKey }, s.repeatUs) ∧
      s.repeatUs ≠ 0) ∧
    (s.scanning = true → key < ph_ps2_maparray → key ≠ 0x48 →
      ¬(0xE0 ≤ key ∧ key ≤ 0xE7) → s.repeatKey = key → s.repeatMod = false →
      (ph_ps2_kbd_send_key true key false s).repeatKey = 0) ∧
    (∀ t : Ps2Kbd, t.repeatKey = 0 →
      ph_ps2_kbd_fire id t =
        ({ t with repeater := 0, pool := t.pool.erase id }, 0)) := by
  have hinv := ps2KbdReach_inv hreach
  obtain ⟨hpool, hid, hus⟩ := hinv
  refine ⟨?_, ?_, ?_, ?_, ?_⟩
  · rw [hpool]
    split_ifs <;> simp
  · intro hscan hlt hne hmod
    obtain ⟨h1, h2, h3, _⟩ :=
      press_regular_spec key s hscan hlt hne hmod ⟨hpool, hid, hus⟩
    exact ⟨h2, h1, h3⟩
  · intro hk hrm
    exact ⟨fire_regular id s hk hrm (by omega), by omega⟩
  · intro hscan hlt hne hmod hk hrm
    exact release_regular_spec key s hscan hlt hne hmod hk hrm
  · intro t ht
    exact fire_zero id t ht

theorem ps2_kbd_typematic_witness :
    ps2KbdInit.pool.length ≤ 1 ∧
    (ph_ps2_kbd_send_key true 4 true ps2KbdInit).pool = [ps2KbdInit.nextId] ∧
    (ph_ps2_kbd_fire 1
        (ph_ps2_kbd_send_key true 4 true ps2KbdInit) =
      ({ ph_ps2_kbd_send_key true 4 true ps2KbdInit with
          sent := (ph_ps2_kbd_send_key true 4 true ps2KbdInit).sent ++
            ps2MakeCode (ph_ps2_kbd_send_key true 4 true ps2KbdInit).repeatKey },
        (ph_ps2_kbd_send_key true 4 true ps2KbdInit).repeatUs)) ∧
    (ph_ps2_kbd_send_key true 4 false
        (ph_ps2_kbd_send_key true 4 true ps2KbdInit)).repeatKey = 0 ∧
    ph_ps2_kbd_fire 1 ps2KbdInit =
      ({ ps2KbdInit with repeater := 0, pool := ps2KbdInit.pool.erase 1 }, 0) := by
  have h0 := ps2_kbd_typematic ps2KbdInit 4 1 Ps2KbdReach.init
  have hr1 : Ps2KbdReach (ph_ps2_kbd_send_key true 4 true ps2KbdInit) :=
    Ps2KbdReach.step Ps2KbdReach.init (Ps2KbdStep.sendKey true 4 true)
  have h1 := ps2_kbd_typematic (ph_ps2_kbd_send_key true 4 true ps2KbdInit) 4 1 hr1
  refine ⟨h0.1, (h0.2.1 (by decide) (by decide) (by decide) (by decide)).1,
    (h1.2.2.1 (by decide) (by decide)).1,
    h1.2.2.2.1 (by decide) (by decide) (by decide) (by decide) (by decide)
      (by decide),
    h0.2.2.2.2 ps2KbdInit (by decide)⟩

/-- C9 (counterexample): the scan-code table `ph_ps2_hid2ps2` has 116
entries, not 112, and `ph_ps2_kbd_send_key` acts on key code 112 (`key <
ph_ps2_maparray` holds): it emits the scan code 0x48 and records the key for
typematic repeat, so key codes 112..115 are not ignored. -/
theorem ps2_kbd_table_counterexample :
    ph_ps2_maparray = 116 ∧
    (ph_ps2_kbd_send_key true 112 true ps2KbdInit).sent = [0x48] ∧
    (ph_ps2_kbd_send_key true 112 true ps2KbdInit).repeatKey = 112 := by
  decide

/-- C9 (amended): every translation-table access in the PS/2 keyboard
emulator is in bounds: a modifier key 0xE0..0xE7 indexes the 8-entry
`ph_ps2_mod2ps2` with `key - 0xE0`; regular keys act only when
`key < ph_ps2_maparray = 116`, the size of `ph_ps2_hid2ps2`, and every other
key code is ignored with no state change; in `ph_ps2_kbd_receive` the
typematic rate index is masked to 5 bits (32-entry `ph_ps2_repeats`), the
delay index to 2 bits (4-entry `ph_ps2_delays`), and an LED argument byte
above 7 is clamped to 0 before indexing the 8-entry `ph_ps2_led2ps2`. -/
theorem ps2_kbd_bounds (key byte : Nat) (isPs2 state : Bool) (s : Ps2Kbd) :
    (0xE0 ≤ key → key ≤ 0xE7 → key - 0xE0 < ph_ps2_mod2ps2.length) ∧
    (key < ph_ps2_maparray → key < ph_ps2_hid2ps2.length) ∧
    (¬(0xE0 ≤ key ∧ key ≤ 0xE7) → ph_ps2_maparray ≤ key →
      ph_ps2_kbd_send_key isPs2 key state s = s) ∧
    byte &&& 0x1F < ph_ps2_repeats.length ∧
    (byte &&& 0x60) >>> 5 < ph_ps2_delays.length ∧
    (if byte > 7 then 0 else byte) < ph_ps2_led2ps2.length := by
  refine ⟨?_, fun h => h, ?_, ?_, ?_, ?_⟩
  · intro h1 h2
    show key - 0xE0 < 8
    omega
  · intro hmod hge
    unfold ph_ps2_kbd_send_key
    split_ifs with h1 h2 h3 <;>
      first
        | rfl
        | exact absurd h2 hmod
        | omega
  · show byte &&& 0x1F < 32
    have := Nat.and_le_right (n := byte) (m := 0x1F)
    omega
  · show (byte &&& 0x60) >>> 5 < 4
    have h1 : byte &&& 0x60 ≤ 0x60 := Nat.and_le_right
    rw [Nat.shiftRight_eq_div_pow]
    omega
  · show (if byte > 7 then 0 else byte) < 8
    split <;> omega

theorem ps2_kbd_bounds_witness :
    (0xE3 : Nat) - 0xE0 < ph_ps2_mod2ps2.length ∧
    (5 : Nat) < ph_ps2_hid2ps2.length ∧
    ph_ps2_kbd_send_key true 200 true ps2KbdInit = ps2KbdInit := by
  have h := ps2_kbd_bounds 0xE3 0xFF true true ps2KbdInit
  have h2 := ps2_kbd_bounds 200 0xFF true true ps2KbdInit
  have h3 := ps2_kbd_bounds 5 0xFF true true ps2KbdInit
  exact ⟨h.1 (by decide) (by decide), h3.2.1 (by decide),
    h2.2.2.1 (by decide) (by decide)⟩

/-! ### Link protocol engine lemmas -/

theorem xor_ne_of_ne_zero {x a : Nat} (ha : a ≠ 0) : x ^^^ a ≠ x := by
  intro h
  apply ha
  have h2 : x ^^^ (x ^^^ a) = x ^^^ x := congrArg (x ^^^ ·) h
  rw [← Nat.xor_assoc, Nat.xor_self, Nat.zero_xor] at h2
  simpa using h2

theorem one_shiftLeft_ne_zero (k : Nat) : (1 <<< k) ≠ 0 := by
  rw [Nat.shiftLeft_eq]
  positivity

theorem one_shiftLeft_lt_256 {k : Nat} (hk : k < 8) : 1 <<< k < 256 := by
  rw [Nat.shiftLeft_eq]
  calc 1 * 2 ^ k = 2 ^ k := by ring
    _ < 2 ^ 8 := Nat.pow_lt_pow_right (by norm_num) hk
    _ = 256 := by norm_num

theorem getD_lt_256 {f : List Nat} (hbytes : ∀ b ∈ f, b < 256) {i : Nat}
    (h : i < f.length) : f.getD i 0 < 256 := by
  have he : f.getD i 0 = f.get ⟨i, h⟩ := by
    simp [List.getD_eq_getElem?_getD, List.getElem?_eq_getElem h]
  rw [he]
  exact hbytes _ (List.get_mem f i h)

/-- Flipping any single bit of a valid frame makes the magic/CRC check of
`_handle_request` fail. -/
theorem flip_invalidates {f : List Nat} (hv : validFrame f) {p k : Nat}
    (hp : p < 8) (hk : k < 8) :
    ¬((flipBit f p k).getD 0 0 = 0x33 ∧
      ph_crc16 ((flipBit f p k).take 6) =
        ph_merge8_u16 ((flipBit f p k).getD 6 0) ((flipBit f p k).getD 7 0)) := by
  obtain ⟨hlen, hbytes, hmagic, hcrc⟩ := hv
  rintro ⟨-, habs⟩
  by_cases hp6 : p < 6
  · -- a flip in the CRC-covered bytes changes the CRC but not the trailer
    have htake : (flipBit f p k).take 6 =
        (f.take 6).set p (f.getD p 0 ^^^ (1 <<< k)) := List.set_take
    have hlen6 : (f.take 6).length = 6 := by simp [hlen]
    have hgetp : (f.take 6).getD p 0 = f.getD p 0 := by
      simp [List.getD_eq_getElem?_getD, List.getElem?_take_of_lt hp6]
    have hget6 : (flipBit f p k).getD 6 0 = f.getD 6 0 := by
      simp [flipBit, List.getD_eq_getElem?_getD,
        List.getElem?_set_ne (show p ≠ 6 by omega)]
    have hget7 : (flipBit f p k).getD 7 0 = f.getD 7 0 := by
      simp [flipBit, List.getD_eq_getElem?_getD,
        List.getElem?_set_ne (show p ≠ 7 by omega)]
    rw [htake, hget6, hget7, ← hgetp,
      ph_crc16_set_xor (f.take 6) p (1 <<< k) (by rw [hlen6]; exact hp6),
      hlen6, ← hcrc] at habs
    exact xor_ne_of_ne_zero (crc16_one_hot_ne_zero p hp6 k hk) habs
  · -- a flip in a trailer byte changes the stored CRC but not the computed one
    have htake : (flipBit f p k).take 6 = f.take 6 := by
      rw [flipBit, List.set_take,
        List.set_eq_of_length_le (by rw [List.length_take, hlen]; omega)]
    have hvne : f.getD p 0 ^^^ (1 <<< k) ≠ f.getD p 0 :=
      xor_ne_of_ne_zero (one_shiftLeft_ne_zero k)
    have hvlt : f.getD p 0 ^^^ (1 <<< k) < 256 :=
      Nat.xor_lt_two_pow (n := 8) (getD_lt_256 hbytes (by omega))
        (one_shiftLeft_lt_256 hk)
    have h7lt : f.getD 7 0 < 256 := getD_lt_256 hbytes (by omega)
    have hsetp : (flipBit f p k).getD p 0 = f.getD p 0 ^^^ (1 <<< k) := by
      simp [flipBit, List.getD_eq_getElem?_getD,
        List.getElem?_set_self (show p < f.length by omega)]
    rcases (show p = 6 ∨ p = 7 by omega) with rfl | rfl
    · have hset7 : (flipBit f 6 k).getD 7 0 = f.getD 7 0 := by
        simp [flipBit, List.getD_eq_getElem?_getD,
          List.getElem?_set_ne (show (6 : Nat) ≠ 7 by omega)]
      rw [htake, hsetp, hset7, hcrc] at habs
      exact hvne (ph_merge8_u16_inj h7lt h7lt habs.symm).1
    · have hset6 : (flipBit f 7 k).getD 6 0 = f.getD 6 0 := by
        simp [flipBit, List.getD_eq_getElem?_getD,
          List.getElem?_set_ne (show (7 : Nat) ≠ 6 by omega)]
      rw [htake, hsetp, hset6, hcrc] at habs
      exact hvne (ph_merge8_u16_inj h7lt hvlt habs).2.symm

/-- C1: `_handle_request` dispatches only when byte 0 is the magic 0x33 and
the CRC-16 of bytes 0..5 equals `merge16(f[6], f[7])`; any frame failing the
check changes no state and yields CRC_ERROR (0x40), and in particular every
single-bit corruption of a valid frame is rejected with CRC_ERROR, which is
also the status byte of the emitted response. -/
theorem link_dispatch_crc (keymap : Nat → Nat) (f : List Nat) (e : Engine)
    (p k : Nat) (hp : p < 8) (hk : k < 8) :
    (¬(f.getD 0 0 = 0x33 ∧
        ph_crc16 (f.take 6) = ph_merge8_u16 (f.getD 6 0) (f.getD 7 0)) →
      _handle_request keymap f e = (e, 0x40)) ∧
    (validFrame f →
      _handle_request keymap (flipBit f p k) e = (e, 0x40) ∧
      (_data_handler keymap (flipBit f p k) e).2.getD 1 0 = 0x40) := by
  have hrej : ∀ g : List Nat,
      ¬(g.getD 0 0 = 0x33 ∧
        ph_crc16 (g.take 6) = ph_merge8_u16 (g.getD 6 0) (g.getD 7 0)) →
      _handle_request keymap g e = (e, 0x40) := by
    intro g hg
    unfold _handle_request
    rw [if_neg hg]
  refine ⟨hrej f, fun hv => ?_⟩
  have hflip := hrej (flipBit f p k) (flip_invalidates hv hp hk)
  refine ⟨hflip, ?_⟩
  unfold _data_handler
  rw [hflip]
  simp [_send_response, respBytes]
  intro hx
  exact absurd (by decide : (0x40 : Nat) &&& 0x80 = 0) hx

set_option maxRecDepth 16384 in
theorem link_dispatch_crc_witness :
    _handle_request (fun k => k)
        (flipBit [0x33, 0x01, 0, 0, 0, 0, 0x18, 0x38] 1 0)
        ⟨0, 0, 0, false, 0x24, ⟨0, List.replicate 6 0, true⟩, 0, true, true,
          ⟨0, 0, 0⟩, ps2KbdInit, false, false, ps2MouseInit⟩ =
      (⟨0, 0, 0, false, 0x24, ⟨0, List.replicate 6 0, true⟩, 0, true, true,
        ⟨0, 0, 0⟩, ps2KbdInit, false, false, ps2MouseInit⟩, 0x40) := by
  have h := link_dispatch_crc (fun k => k)
    [0x33, 0x01, 0, 0, 0, 0, 0x18, 0x38]
    ⟨0, 0, 0, false, 0x24, ⟨0, List.replicate 6 0, true⟩, 0, true, true,
      ⟨0, 0, 0⟩, ps2KbdInit, false, false, ps2MouseInit⟩ 1 0
    (by decide) (by decide)
  exact (h.2 ⟨by decide, by decide, by decide, by decide⟩).1

/-- `_handle_request` never changes the engine state on a path that returns
CRC_ERROR or INVALID_ERROR: those codes are produced before any handler
runs. -/
theorem handle_request_state_or (keymap : Nat → Nat) (f : List Nat)
    (e : Engine) :
    (_handle_request keymap f e).1 = e ∨
      (_handle_request keymap f e).2 = 0x80 := by
  unfold _handle_request
  by_cases hh : f.getD 0 0 = 0x33 ∧
      ph_crc16 (f.take 6) = ph_merge8_u16 (f.getD 6 0) (f.getD 7 0)
  · rw [if_pos hh]
    dsimp only
    by_cases h1 : f.getD 1 0 = 0x01
    · rw [if_pos h1]; right; rfl
    rw [if_neg h1]
    by_cases h2 : f.getD 1 0 = 0x03
    · rw [if_pos h2]; right; rfl
    rw [if_neg h2]
    by_cases h3 : f.getD 1 0 = 0x04
    · rw [if_pos h3]; right; rfl
    rw [if_neg h3]
    by_cases h4 : f.getD 1 0 = 0x05
    · rw [if_pos h4]; right; rfl
    rw [if_neg h4]
    by_cases h5 : f.getD 1 0 = 0x10
    · rw [if_pos h5]; right; rfl
    rw [if_neg h5]
    by_cases h6 : f.getD 1 0 = 0x11
    · rw [if_pos h6]; right; rfl
    rw [if_neg h6]
    by_cases h7 : f.getD 1 0 = 0x13
    · rw [if_pos h7]; right; rfl
    rw [if_neg h7]
    by_cases h8 : f.getD 1 0 = 0x12
    · rw [if_pos h8]; right; rfl
    rw [if_neg h8]
    by_cases h9 : f.getD 1 0 = 0x15
    · rw [if_pos h9]; right; rfl
    rw [if_neg h9]
    by_cases h10 : f.getD 1 0 = 0x14
    · rw [if_pos h10]; right; rfl
    rw [if_neg h10]
    by_cases h11 : f.getD 1 0 = 0x02
    · rw [if_pos h11]; left; rfl
    rw [if_neg h11]
    left
    rfl
  · rw [if_neg hh]
    left
    rfl

theorem handle_request_err_state (keymap : Nat → Nat) (f : List Nat)
    (e : Engine)
    (h : (_handle_request keymap f e).2 = 0x40 ∨
      (_handle_request keymap f e).2 = 0x45) :
    (_handle_request keymap f e).1 = e := by
  rcases handle_request_state_or keymap f e with h1 | h1
  · exact h1
  · rcases h with h | h <;> rw [h1] at h <;> cases h

/-- C7: whenever request handling yields CRC_ERROR or INVALID_ERROR, a full
8-byte response carrying that status is still emitted, and nothing but the
response cache (`prev_code`) changes: the configuration record and every
backend's held key/button state are exactly as before; the mid-frame timeout
likewise emits a TIMEOUT_ERROR (0x48) response and changes only
`prev_code`. -/
theorem error_responses (keymap : Nat → Nat) (f : List Nat) (e : Engine)
    (c : Nat) (hc : c = 0x40 ∨ c = 0x45)
    (hreq : (_handle_request keymap f e).2 = c) :
    (_handle_request keymap f e).1 = e ∧
    _data_handler keymap f e =
      ({ e with prevCode := c }, respBytes c { e with prevCode := c }) ∧
    (_data_handler keymap f e).2.getD 1 0 = c ∧
    (_data_handler keymap f e).2.length = 8 ∧
    _timeout_handler e =
      ({ e with prevCode := 0x48 }, respBytes 0x48 { e with prevCode := 0x48 }) ∧
    (_timeout_handler e).2.getD 1 0 = 0x48 ∧
    (_timeout_handler e).2.length = 8 := by
  have hstate : (_handle_request keymap f e).1 = e :=
    handle_request_err_state keymap f e (by rw [hreq]; exact hc)
  have hre : _handle_request keymap f e = (e, c) := by
    have heta := Prod.mk.eta (p := _handle_request keymap f e)
    rw [hstate, hreq] at heta
    exact heta.symm
  have hcne : c ≠ 0 := by rcases hc with rfl | rfl <;> decide
  have hdh : _data_handler keymap f e =
      ({ e with prevCode := c }, respBytes c { e with prevCode := c }) := by
    unfold _data_handler
    rw [hre]
    unfold _send_response
    dsimp only
    rw [if_neg hcne, if_neg hcne]
  have h40 : (0x40 : Nat) &&& 0x80 = 0 := by decide
  have h45 : (0x45 : Nat) &&& 0x80 = 0 := by decide
  have h48 : (0x48 : Nat) &&& 0x80 = 0 := by decide
  have htim : _timeout_handler e =
      ({ e with prevCode := 0x48 }, respBytes 0x48 { e with prevCode := 0x48 }) := by
    unfold _timeout_handler _send_response
    dsimp only
    rw [if_neg (by decide : ¬((0x48 : Nat) = 0)),
      if_neg (by decide : ¬((0x48 : Nat) = 0))]
  refine ⟨hstate, hdh, ?_, ?_, htim, ?_, ?_⟩
  · rw [hdh]
    rcases hc with rfl | rfl <;> simp [respBytes, h40, h45]
  · rw [hdh]
    rcases hc with rfl | rfl <;> simp [respBytes]
  · rw [htim]
    simp [respBytes, h48]
  · rw [htim]
    simp [respBytes]

theorem error_responses_witness :
    (_data_handler (fun k => k) [0, 0, 0, 0, 0, 0, 0, 0]
      ⟨0, 0, 0, false, 0x24, ⟨0, List.replicate 6 0, true⟩, 0, true, true,
        ⟨0, 0, 0⟩, ps2KbdInit, false, false, ps2MouseInit⟩).2.getD 1 0 = 0x40 := by
  have h := error_responses (fun k => k) [0, 0, 0, 0, 0, 0, 0, 0]
    ⟨0, 0, 0, false, 0x24, ⟨0, List.replicate 6 0, true⟩, 0, true, true,
      ⟨0, 0, 0⟩, ps2KbdInit, false, false, ps2MouseInit⟩ 0x40
    (Or.inl rfl) (by decide)
  exact h.2.2.1

/-- A valid REPEAT frame takes the `return 0` branch of `_handle_request`
without touching the engine state. -/
theorem handle_request_repeat (keymap : Nat → Nat) (f : List Nat) (e : Engine)
    (hf : f.getD 0 0 = 0x33 ∧ f.getD 1 0 = 0x02 ∧
      ph_crc16 (f.take 6) = ph_merge8_u16 (f.getD 6 0) (f.getD 7 0)) :
    _handle_request keymap f e = (e, 0) := by
  unfold _handle_request
  rw [if_pos ⟨hf.1, hf.2.2⟩]
  dsimp only
  rw [if_neg (by rw [hf.2.1]; decide), if_neg (by rw [hf.2.1]; decide),
    if_neg (by rw [hf.2.1]; decide), if_neg (by rw [hf.2.1]; decide),
    if_neg (by rw [hf.2.1]; decide), if_neg (by rw [hf.2.1]; decide),
    if_neg (by rw [hf.2.1]; decide), if_neg (by rw [hf.2.1]; decide),
    if_neg (by rw [hf.2.1]; decide), if_neg (by rw [hf.2.1]; decide),
    if_pos hf.2.1]

/-- C5: after a successful response with (nonzero) code `c`, a valid REPEAT
request handled with no intervening state change produces a byte-identical
response: `_handle_request` returns the repeat sentinel 0 without touching
the state, and `_send_response` replays `prev_code` against the same
engine state, yielding the same 8 bytes. -/
theorem repeat_returns_previous (keymap : Nat → Nat) (f : List Nat)
    (e : Engine) (c : Nat) (hc : c ≠ 0)
    (hf : f.getD 0 0 = 0x33 ∧ f.getD 1 0 = 0x02 ∧
      ph_crc16 (f.take 6) = ph_merge8_u16 (f.getD 6 0) (f.getD 7 0)) :
    _send_response c e =
      ({ e with prevCode := c }, respBytes c { e with prevCode := c }) ∧
    _handle_request keymap f { e with prevCode := c } =
      ({ e with prevCode := c }, 0) ∧
    _data_handler keymap f { e with prevCode := c } =
      ({ e with prevCode := c }, respBytes c { e with prevCode := c }) := by
  have h1 : _send_response c e =
      ({ e with prevCode := c }, respBytes c { e with prevCode := c }) := by
    unfold _send_response
    dsimp only
    rw [if_neg hc, if_neg hc]
  have h2 : _handle_request keymap f { e with prevCode := c } =
      ({ e with prevCode := c }, 0) := handle_request_repeat keymap f _ hf
  refine ⟨h1, h2, ?_⟩
  unfold _data_handler
  rw [h2]
  unfold _send_response
  dsimp only
  rw [if_pos rfl, if_pos rfl]

set_option maxRecDepth 16384 in
theorem repeat_returns_previous_witness :
    _data_handler (fun k => k) [0x33, 0x02, 0, 0, 0, 0, 0x18, 0x7C]
      { (⟨0, 0, 0, false, 0x24, ⟨0, List.replicate 6 0, true⟩, 0, true, true,
          ⟨0, 0, 0⟩, ps2KbdInit, false, false, ps2MouseInit⟩ : Engine) with
        prevCode := 0x80 } =
      ({ (⟨0, 0, 0, false, 0x24, ⟨0, List.replicate 6 0, true⟩, 0, true, true,
          ⟨0, 0, 0⟩, ps2KbdInit, false, false, ps2MouseInit⟩ : Engine) with
        prevCode := 0x80 },
        respBytes 0x80
          { (⟨0, 0, 0, false, 0x24, ⟨0, List.replicate 6 0, true⟩, 0, true,
              true, ⟨0, 0, 0⟩, ps2KbdInit, false, false, ps2MouseInit⟩ :
              Engine) with prevCode := 0x80 }) := by
  have h := repeat_returns_previous (fun k => k)
    [0x33, 0x02, 0, 0, 0, 0, 0x18, 0x7C]
    ⟨0, 0, 0, false, 0x24, ⟨0, List.replicate 6 0, true⟩, 0, true, true,
      ⟨0, 0, 0⟩, ps2KbdInit, false, false, ps2MouseInit⟩ 0x80
    (by decide) ⟨by decide, by decide, by decide⟩
  exact h.2.2

set_option maxRecDepth 16384 in
/-- C10: when the first request ever processed is a valid REPEAT frame, the
previous-response cache still holds its initial value NONE (0x24), so the
engine emits a response whose status byte is 0x24 with a correct CRC over
its first 6 bytes, and the state is unchanged. -/
theorem first_repeat_is_none (keymap : Nat → Nat) (f : List Nat) (e : Engine)
    (hprev : e.prevCode = 0x24)
    (hf : f.getD 0 0 = 0x33 ∧ f.getD 1 0 = 0x02 ∧
      ph_crc16 (f.take 6) = ph_merge8_u16 (f.getD 6 0) (f.getD 7 0)) :
    _data_handler keymap f e = (e, respBytes 0x24 e) ∧
    (respBytes 0x24 e).getD 1 0 = 0x24 ∧
    ph_crc16 ((respBytes 0x24 e).take 6) =
      ph_merge8_u16 ((respBytes 0x24 e).getD 6 0)
        ((respBytes 0x24 e).getD 7 0) := by
  have h2 : _handle_request keymap f e = (e, 0) :=
    handle_request_repeat keymap f e hf
  have h24 : (0x24 : Nat) &&& 0x80 = 0 := by decide
  have hresp : respBytes 0x24 e = [0x34, 0x24, 0, 0, 0, 0,
      ph_split16_hi (ph_crc16 [0x34, 0x24, 0, 0, 0, 0]),
      ph_split16_lo (ph_crc16 [0x34, 0x24, 0, 0, 0, 0])] := by
    simp [respBytes, h24]
  refine ⟨?_, by rw [hresp]; rfl, by rw [hresp]; decide⟩
  unfold _data_handler
  rw [h2]
  unfold _send_response
  dsimp only
  rw [if_pos rfl, if_pos rfl, hprev]

set_option maxRecDepth 16384 in
theorem first_repeat_is_none_witness :
    _data_handler (fun k => k) [0x33, 0x02, 0, 0, 0, 0, 0x18, 0x7C]
      ⟨0, 0, 0, false, 0x24, ⟨0, List.replicate 6 0, true⟩, 0, true, true,
        ⟨0, 0, 0⟩, ps2KbdInit, false, false, ps2MouseInit⟩ =
      (⟨0, 0, 0, false, 0x24, ⟨0, List.replicate 6 0, true⟩, 0, true, true,
        ⟨0, 0, 0⟩, ps2KbdInit, false, false, ps2MouseInit⟩,
        respBytes 0x24
          ⟨0, 0, 0, false, 0x24, ⟨0, List.replicate 6 0, true⟩, 0, true, true,
            ⟨0, 0, 0⟩, ps2KbdInit, false, false, ps2MouseInit⟩) := by
  have h := first_repeat_is_none (fun k => k)
    [0x33, 0x02, 0, 0, 0, 0, 0x18, 0x7C]
    ⟨0, 0, 0, false, 0x24, ⟨0, List.replicate 6 0, true⟩, 0, true, true,
      ⟨0, 0, 0⟩, ps2KbdInit, false, false, ps2MouseInit⟩
    (by decide) ⟨by decide, by decide, by decide⟩
  exact h.1

end OneKVM
